import Mathlib

/-!
# NovaDo — verification of the calendar-sync engine

Shallow embedding of the bidirectional Google-Calendar sync engine of the
NovaDo backend (`app/scheduler.py` and the sync-relevant parts of
`app/routes/calendar.py`), together with theorems settling the frozen
claims about it.

Conventions of the embedding:
* Python `datetime` timestamps are modelled as minutes since the Unix
  epoch (`Nat` for "now"/bookkeeping timestamps, `Int` for wall-clock
  minutes that may predate the epoch).  Only comparisons and whole-minute
  offset arithmetic are performed on them in the modelled code, so the
  sub-minute component is irrelevant (the code formats `%H:%M` and
  truncates dates to midnight).
* A `datetime` that the code truncates to midnight (task `dueDate`) is
  modelled as its civil day number (days since 1970-01-01).
* Optional / possibly-missing dict entries are `Option`; Python
  truthiness tests on them are modelled field by field (empty strings
  are falsy, `datetime` values are always truthy).
* The external `pytz` timezone database is modelled with the two zones
  the claims exercise (`UTC`, `America/Denver` with the post-2007 US
  daylight-saving rule); an unknown name yields `none`, matching
  `pytz.UnknownTimeZoneError`.
-/

namespace NovaDo

/-! ## Civil-calendar arithmetic

Day numbering follows the standard civil-from-days / days-from-civil
algorithms (proleptic Gregorian, day 0 = 1970-01-01). -/

/-- Day number of the civil date `y-m-d` (days since 1970-01-01). -/
def daysFromCivil (y : Int) (m d : Int) : Int :=
  let y' : Int := if m ≤ 2 then y - 1 else y
  let era : Int := y' / 400
  let yoe : Int := y' - era * 400
  let mp : Int := if m > 2 then m - 3 else m + 9
  let doy : Int := (153 * mp + 2) / 5 + d - 1
  let doe : Int := yoe * 365 + yoe / 4 - yoe / 100 + doy
  era * 146097 + doe - 719468

/-- Civil year containing day number `z`. -/
def civilYearOfDay (z : Int) : Int :=
  let z' : Int := z + 719468
  let era : Int := z' / 146097
  let doe : Int := z' - era * 146097
  let yoe : Int := (doe - doe / 1460 + doe / 36524 - doe / 146096) / 365
  let y : Int := yoe + era * 400
  let doy : Int := doe - (365 * yoe + yoe / 4 - yoe / 100)
  let mp : Int := (5 * doy + 2) / 153
  let m : Int := if mp < 10 then mp + 3 else mp - 9
  if m ≤ 2 then y + 1 else y

/-- Day number of the first Sunday on or after day `z`
(1970-01-01 was a Thursday; weekday `(z+4) % 7 = 0` means Sunday). -/
def firstSundayFrom (z : Int) : Int :=
  z + (7 - (z + 4) % 7) % 7

/-- Day number of the second Sunday of March of year `y`. -/
def secondSundayMarch (y : Int) : Int :=
  firstSundayFrom (daysFromCivil y 3 1) + 7

/-- Day number of the first Sunday of November of year `y`. -/
def firstSundayNov (y : Int) : Int :=
  firstSundayFrom (daysFromCivil y 11 1)

/-! ## Timezone model (external `pytz` collaborator)

A timezone provides the UTC offset (in minutes east) both as a function
of a UTC instant (used by `datetime.astimezone`) and as a function of a
naive wall-clock time (used by `pytz`'s `localize`, which with its
default `is_dst=False` resolves ambiguous/nonexistent wall times to the
standard offset). -/

structure Tz where
  /-- Offset (minutes east of UTC) in effect at a UTC instant, in minutes
  since the epoch. -/
  offsetAtInstant : Int → Int
  /-- Offset chosen by `pytz.localize` for a naive wall-clock time, in
  wall minutes since the epoch. -/
  localizeOffset : Int → Int

/-- The UTC zone. -/
def utcTz : Tz := ⟨fun _ => 0, fun _ => 0⟩

/-- `America/Denver`: UTC-7 standard, UTC-6 daylight; daylight saving in
effect from 02:00 local standard time on the second Sunday of March
(09:00 UTC) until 02:00 local daylight time on the first Sunday of
November (08:00 UTC), per the post-2007 US rule the tz database encodes.
Years before 2007 are modelled as permanently on standard time. -/
def denverOffsetAtInstant (t : Int) : Int :=
  let y := civilYearOfDay (t / 1440)
  if y < 2007 then -420
  else
    let dstStart := secondSundayMarch y * 1440 + 9 * 60
    let dstEnd := firstSundayNov y * 1440 + 8 * 60
    if dstStart ≤ t ∧ t < dstEnd then -360 else -420

/-- `pytz.localize` offset for `America/Denver` with `is_dst=False`:
wall times from 03:00 on the second Sunday of March up to (but not
including) 01:00 on the first Sunday of November get the daylight
offset; ambiguous and nonexistent wall times resolve to standard. -/
def denverLocalizeOffset (w : Int) : Int :=
  let y := civilYearOfDay (w / 1440)
  if y < 2007 then -420
  else
    let dstStart := secondSundayMarch y * 1440 + 3 * 60
    let dstEnd := firstSundayNov y * 1440 + 1 * 60
    if dstStart ≤ w ∧ w < dstEnd then -360 else -420

/-- The Denver timezone record. -/
def denverTz : Tz := ⟨denverOffsetAtInstant, denverLocalizeOffset⟩

/-- `pytz.timezone` lookup, restricted to the zones exercised here; an
unknown name is `none` (`pytz.UnknownTimeZoneError`). -/
def pytzTimezone (name : String) : Option Tz :=
  if name = "UTC" then some utcTz
  else if name = "America/Denver" then some denverTz
  else none

/-! ## Time formatting and parsing helpers -/

/-- Two-digit zero padding, as produced by `strftime`. -/
def pad2 (n : Nat) : String :=
  if n < 10 then "0" ++ toString n else toString n

/-- `strftime("%H:%M")` of a wall-clock minute count. -/
def fmtHM (w : Int) : String :=
  pad2 ((w % 1440) / 60).toNat ++ ":" ++ pad2 (w % 60).toNat

/-- `hours, minutes = map(int, s.split(":"))` — fails (raises in the
source) unless the string is exactly two `:`-separated decimal fields. -/
def parseHM (s : String) : Except String (Nat × Nat) :=
  match (s.splitOn ":").map String.toNat? with
  | [some h, some m] => .ok (h, m)
  | _ => .error "ValueError: invalid dueTime"

/-! ## Remote time strings and `convert_event_time_to_user_tz` -/

/-- A naive civil datetime (the literal digits of an ISO string). -/
structure CivilDT where
  year : Int
  month : Int
  day : Int
  hour : Int
  minute : Int
deriving DecidableEq, Repr

/-- Wall-clock minutes since the epoch of the literal digits. -/
def CivilDT.wall (dt : CivilDT) : Int :=
  daysFromCivil dt.year dt.month dt.day * 1440 + dt.hour * 60 + dt.minute

/-- The three shapes of datetime string the converter distinguishes:
`"...Z"`, explicit offset (`"...+05:30"` / `"...-07:00"`, minutes east),
and a bare naive local time. -/
inductive RemoteTimeStr where
  | zulu (dt : CivilDT)
  | withOffset (dt : CivilDT) (off : Int)
  | naive (dt : CivilDT)
deriving DecidableEq, Repr

/-- `time_str.endswith('Z')`. -/
def RemoteTimeStr.endsWithZ : RemoteTimeStr → Bool
  | .zulu _ => true
  | _ => false

/-- `'+' in time_str or (time_str.count('-') > 2 and 'T' in time_str)` —
true exactly on offset-bearing ISO datetimes (a positive offset
contributes the `'+'`, a negative one a third `'-'`). -/
def RemoteTimeStr.hasOffsetMarker : RemoteTimeStr → Bool
  | .withOffset _ _ => true
  | _ => false

/-- The literal digits of the string. -/
def RemoteTimeStr.digits : RemoteTimeStr → CivilDT
  | .zulu dt => dt
  | .withOffset dt _ => dt
  | .naive dt => dt

/-- The offset carried by the string (`+00:00` after the `Z` replacement). -/
def RemoteTimeStr.carriedOffset : RemoteTimeStr → Int
  | .zulu _ => 0
  | .withOffset _ off => off
  | .naive _ => 0

/-- User `preferences` sub-document (only the field the sync engine
reads). -/
structure UserPreferences where
  timezone : Option String
deriving DecidableEq, Repr

/-- `convert_event_time_to_user_tz` (`app/routes/calendar.py`): convert
a calendar event time string to the user's timezone, returning the
date-only day number (midnight, no timezone) and an `"HH:MM"` string.
An aware datetime is represented as (wall minutes, offset); the instant
it denotes is `wall - offset`. -/
def convert_event_time_to_user_tz (s : RemoteTimeStr) (prefs : UserPreferences) :
    Int × String :=
  let user_tz :=
    match pytzTimezone (prefs.timezone.getD "UTC") with
    | some tz => tz
    | none => utcTz
  let aware : Int × Int :=
    if s.endsWithZ then
      (s.digits.wall, 0)
    else if s.hasOffsetMarker then
      (s.digits.wall, s.carriedOffset)
    else
      (s.digits.wall, user_tz.localizeOffset s.digits.wall)
  let instant := aware.1 - aware.2
  let userWall := instant + user_tz.offsetAtInstant instant
  (userWall / 1440, fmtHM userWall)

/-! ## Data model

Field layout follows the task/user documents the engine reads and
writes.  Bookkeeping timestamps (`updatedAt`, `lastSyncedAt`,
`lastCalendarSync`, remote `updated`) are minutes since the epoch. -/

/-- Embedded `reminder` sub-document of a task. -/
structure Reminder where
  enabled : Option Bool := none
  minutesBefore : Option Nat := none
  notifyDesktop : Option Bool := none
  notifyMobile : Option Bool := none
  lastSent : Option Nat := none
deriving DecidableEq, Repr

/-- A task document.  `dueDate` is the civil day number of the stored
midnight datetime. -/
structure Task where
  id : Nat
  user : Nat
  title : Option String := none
  description : Option String := none
  dueDate : Option Int := none
  dueTime : Option String := none
  priority : Option String := none
  status : Option String := none
  tags : List String := []
  syncToCalendar : Option Bool := none
  googleEventId : Option String := none
  googleCalendarId : Option String := none
  googleCalendarColor : Option String := none
  syncedWithGoogle : Option Bool := none
  lastSyncedAt : Option Nat := none
  createdAt : Option Nat := none
  updatedAt : Option Nat := none
  reminder : Reminder := {}
  listRef : Option Nat := none
deriving DecidableEq, Repr

/-- A user document (the fields the sync engine touches). -/
structure User where
  id : Nat
  email : Option String := none
  googleAccessToken : Option String := none
  googleRefreshToken : Option String := none
  googleTokenExpiry : Option Nat := none
  googleSelectedCalendars : Option (List String) := none
  lastCalendarSync : Option Nat := none
  preferences : UserPreferences := ⟨none⟩
deriving DecidableEq, Repr

/-- A list document (only what `_pull_from_google` reads: owner and
name, for the `"Inbox"` lookup). -/
structure MList where
  id : Nat
  user : Nat
  name : String
deriving DecidableEq, Repr

/-- The document store contents the engine touches.  `nextTaskId` models
id assignment on `insert_one`. -/
structure Db where
  users : List User
  tasks : List Task
  lists : List MList
  nextTaskId : Nat
deriving DecidableEq, Repr

/-- Python truthiness of an optional string (`None` and `""` are falsy). -/
def strTruthy : Option String → Bool
  | some s => !(s == "")
  | none => false

/-- Python truthiness of `task.get(f, default=None/False)` on a bool
field. -/
def boolTruthy : Option Bool → Bool
  | some b => b
  | none => false

/-- `task.get("status") in ["completed", "deleted", "skipped"]`. -/
def isTerminalStatus : Option String → Bool
  | some s => s == "completed" || s == "deleted" || s == "skipped"
  | none => false

/-! ## Event ↔ task mapper: `build_google_calendar_event` -/

/-- A `start`/`end` field of a Google event body: all-day (`"date"`,
formatted `%Y-%m-%d`, kept as a day number) or timed (`"dateTime"`
isoformat — wall minutes plus the offset `pytz.localize` stamped — with
a separate `"timeZone"` name). -/
inductive GEventTime where
  | date (day : Int)
  | dateTime (wall : Int) (off : Int) (tzName : String)
deriving DecidableEq, Repr

/-- The `reminders` field of an event body. -/
structure GReminders where
  useDefault : Bool
  /-- `overrides`: (method, minutes) pairs. -/
  overrides : List (String × Nat)
deriving DecidableEq, Repr

/-- A Google Calendar event body as built by the mapper. -/
structure GEventBody where
  summary : String
  description : String
  startTime : GEventTime
  endTime : GEventTime
  reminders : Option GReminders
  colorId : String
deriving DecidableEq, Repr

/-- `str.title()` on the single-word priority names. -/
def pyTitle (s : String) : String :=
  match s.toList with
  | [] => ""
  | c :: rest => String.mk (c.toUpper :: rest.map Char.toLower)

/-- Priority emoji used in the description footer. -/
def priorityIcon (p : String) : String :=
  if p = "low" then "🟢" else if p = "medium" then "🟡"
  else if p = "high" then "🔴" else ""

/-- `", ".join(tags)`. -/
def joinTags : List String → String
  | [] => ""
  | [t] => t
  | t :: rest => t ++ ", " ++ joinTags rest

/-- `build_google_calendar_event` (`app/routes/calendar.py`): convert a
task document into a Google Calendar event body.  Raises (`.error`) when
`dueDate` is absent, and when a present `dueTime` does not parse as
`"HH:MM"` (the `map(int, due_time.split(":"))` unpacking). -/
def build_google_calendar_event (task : Task) (prefs : UserPreferences) :
    Except String GEventBody := do
  let user_tz_str := prefs.timezone.getD "UTC"
  let summary := task.title.getD "Untitled Task"
  let description := task.description.getD ""
  let description :=
    if description ≠ "" then description ++ "\n\n---\n" else description
  let description := description ++ "📋 Created in NovaDo\n"
  let description :=
    match task.priority with
    | some p =>
        if p ≠ "none" ∧ p ≠ "" then
          description ++ "Priority: " ++ priorityIcon p ++ " " ++ pyTitle p ++ "\n"
        else description
    | none => description
  let description :=
    if task.tags ≠ [] then description ++ "Tags: " ++ joinTags task.tags ++ "\n"
    else description
  let some dueDay := task.dueDate
    | throw "ValueError: Task must have a dueDate to sync to calendar"
  let is_all_day := !strTruthy task.dueTime
  let (startT, endT) ←
    if is_all_day then
      pure (GEventTime.date dueDay, GEventTime.date dueDay)
    else do
      let user_tz := (pytzTimezone user_tz_str).getD utcTz
      let (hours, minutes) ←
        match task.dueTime with
        | some t => parseHM t
        | none => pure (12, 0)
      let naiveWall : Int := dueDay * 1440 + hours * 60 + minutes
      let off := user_tz.localizeOffset naiveWall
      pure (GEventTime.dateTime naiveWall off user_tz_str,
            GEventTime.dateTime (naiveWall + 60) off user_tz_str)
  let reminders :=
    if boolTruthy task.reminder.enabled &&
        boolTruthy (task.reminder.notifyMobile.getD true) then
      some { useDefault := false,
             overrides := [("popup", task.reminder.minutesBefore.getD 30)] }
    else none
  let colorId :=
    let p := task.priority.getD "none"
    if p = "high" then "11" else if p = "medium" then "5"
    else if p = "low" then "10" else if p = "none" then "7" else "7"
  pure { summary := summary, description := description,
         startTime := startT, endTime := endT,
         reminders := reminders, colorId := colorId }

/-! ## Remote calendar service (external collaborator contract) -/

/-- The `start` field of a fetched remote event: a `dateTime` string, a
bare `date` (parsed `%Y-%m-%d`), or absent. -/
inductive REventStart where
  | dateTime (s : RemoteTimeStr)
  | date (y m d : Int)
  | missing
deriving DecidableEq, Repr

/-- A remote event as returned by the events API (the fields the engine
reads).  `updated` is the parsed last-modified timestamp (the code
parses the ISO string; converted to naive UTC). -/
structure RemoteEvent where
  id : Option String := none
  summary : Option String := none
  description : Option String := none
  start : REventStart := .missing
  updated : Option Nat := none
  colorId : Option String := none
deriving DecidableEq, Repr

/-- The remote calendar service: list events of a calendar in a time
window, insert an event, update an event by id.  A `.error` result
models a raised exception, carrying the exception's string form. -/
structure GService where
  list : String → Int → Int → Except String (List RemoteEvent)
  insert : String → GEventBody → Except String RemoteEvent
  update : String → String → GEventBody → Except String RemoteEvent

/-- The revocation signature test on a caught listing exception:
`'invalid_grant' in error_str or 'invalid_client' in error_str or
'Token has been expired or revoked' in error_str`. -/
def isRevocationError (e : String) : Bool :=
  decide ("invalid_grant".toList <:+: e.toList) ||
  decide ("invalid_client".toList <:+: e.toList) ||
  decide ("Token has been expired or revoked".toList <:+: e.toList)

/-! ## Document-store operations

`update_one`/`delete_one` affect the first matching document; the
engine's filters are by id, and the stated theorems assume distinct ids
where it matters. -/

/-- Update every task with the given id (= `update_one` by `_id` under
distinct ids). -/
def Db.updateTask (db : Db) (tid : Nat) (f : Task → Task) : Db :=
  { db with tasks := db.tasks.map fun t => if t.id = tid then f t else t }

/-- Update every user with the given id (= `update_one` by `_id`). -/
def Db.updateUser (db : Db) (uid : Nat) (f : User → User) : Db :=
  { db with users := db.users.map fun u => if u.id = uid then f u else u }

/-- `insert_one` of a task; the store assigns the next id. -/
def Db.insertTask (db : Db) (mk : Nat → Task) : Db :=
  { db with tasks := db.tasks ++ [mk db.nextTaskId],
            nextTaskId := db.nextTaskId + 1 }

/-- `delete_one` of a task by id (removes the first match). -/
def Db.deleteTaskOnce (db : Db) (tid : Nat) : Db :=
  { db with tasks := db.tasks.eraseP fun t => t.id == tid }

/-- `user.get("googleSelectedCalendars") or ["primary"]`: the selected
calendar list, defaulting to `["primary"]` when absent or empty (Python
`or` on a falsy value). -/
def selected_calendars_or_default (user : User) : List String :=
  match user.googleSelectedCalendars with
  | some l => if l = [] then ["primary"] else l
  | none => ["primary"]

/-! ## Pull phase: `_pull_from_google` -/

/-- Observable effects of one pull phase. -/
structure PullLog where
  /-- Ids of tasks overwritten from a newer remote event. -/
  overwrites : List Nat := []
  /-- Ids of tasks created from unmatched remote events. -/
  creations : List Nat := []
  /-- Calendars for which a listing call was attempted, in order. -/
  listedCalendars : List String := []
  /-- Whether the loop returned early on a revocation-signature error. -/
  abortedOnRevocation : Bool := false
deriving DecidableEq, Repr

/-- The `dueDate`/`dueTime` a remote event's start maps to: a
`dateTime` goes through `convert_event_time_to_user_tz`, a bare `date`
is parsed to midnight with no time-of-day. -/
def pull_event_due (user : User) (start : REventStart) : Int × Option String :=
  match start with
  | .dateTime s =>
      let (d, tm) := convert_event_time_to_user_tz s user.preferences
      (d, some tm)
  | .date y m d => (daysFromCivil y m d, none)
  | .missing => (0, none)

/-- Handling of a single listed remote event: match by
`(user, googleEventId)` and apply the last-write-wins pull rule, or
create a new calendar-origin task.  Returns the new store plus the
overwritten / created task id, if any. -/
def pull_process_event (user : User) (calendarId : String) (now : Nat)
    (db : Db) (event : RemoteEvent) : Db × Option Nat × Option Nat :=
  if !strTruthy event.id then (db, none, none)
  else
    let eid := event.id.getD ""
    let existing := db.tasks.find? fun t =>
      t.user == user.id && t.googleEventId == some eid
    match event.start with
    | .missing => (db, none, none)
    | start =>
      let (due_date, due_time) := pull_event_due user start
      match existing with
      | some t =>
        match event.updated, t.updatedAt with
        | some eu, some tu =>
          if eu > tu then
            (db.updateTask t.id (fun tk =>
              { tk with title := some (event.summary.getD "Untitled"),
                        description := some (event.description.getD ""),
                        dueDate := some due_date,
                        dueTime := due_time,
                        lastSyncedAt := some now }),
             some t.id, none)
          else (db, none, none)
        | _, _ => (db, none, none)
      | none =>
        let inbox := db.lists.find? fun l => l.user == user.id && l.name == "Inbox"
        let newId := db.nextTaskId
        (db.insertTask (fun nid =>
          { id := nid, user := user.id,
            title := some (event.summary.getD "Untitled"),
            description := some (event.description.getD ""),
            listRef := inbox.map MList.id,
            dueDate := some due_date, dueTime := due_time,
            priority := some "none", status := some "scheduled",
            tags := ["google-calendar"],
            reminder := { enabled := some false },
            googleEventId := some eid, googleCalendarId := some calendarId,
            googleCalendarColor := event.colorId,
            syncedWithGoogle := some true, syncToCalendar := some true,
            lastSyncedAt := some now, createdAt := some now,
            updatedAt := some now }),
         none, some newId)

/-- Process the events of one calendar listing in order. -/
def pull_calendar_events (user : User) (calendarId : String) (now : Nat) :
    List RemoteEvent → Db → PullLog → Db × PullLog
  | [], db, log => (db, log)
  | e :: rest, db, log =>
    let (db', ow, cr) := pull_process_event user calendarId now db e
    let log' := { log with
      overwrites := log.overwrites ++ ow.toList,
      creations := log.creations ++ cr.toList }
    pull_calendar_events user calendarId now rest db' log'

/-- The per-calendar pull loop.  A revocation-signature listing error
clears the stored credentials (including the calendar selection) and
returns immediately; any other listing error skips that calendar.  After
the loop the user's `lastCalendarSync` watermark is set to now. -/
def pull_loop (svc : GService) (user : User) (now : Nat) (tmin tmax : Int) :
    List String → Db → PullLog → Db × PullLog
  | [], db, log =>
    (db.updateUser user.id (fun u => { u with lastCalendarSync := some now }), log)
  | c :: rest, db, log =>
    let log := { log with listedCalendars := log.listedCalendars ++ [c] }
    match svc.list c tmin tmax with
    | .ok events =>
      let (db', log') := pull_calendar_events user c now events db log
      pull_loop svc user now tmin tmax rest db' log'
    | .error e =>
      if isRevocationError e then
        (db.updateUser user.id (fun u =>
          { u with googleAccessToken := none, googleRefreshToken := none,
                   googleTokenExpiry := none,
                   googleSelectedCalendars := none }),
         { log with abortedOnRevocation := true })
      else
        pull_loop svc user now tmin tmax rest db log

/-- `_pull_from_google`: compute the pull window (watermark minus a
1-hour buffer, or a 24-hours-ago cold-start default; 90 days forward)
and run the per-calendar loop. -/
def pull_from_google (svc : GService) (user : User) (db : Db)
    (selected : List String) (now : Nat) : Db × PullLog :=
  let time_min : Int :=
    match user.lastCalendarSync with
    | some ls => (ls : Int) - 60
    | none => (now : Int) - 1440
  let time_max : Int := (now : Int) + 90 * 1440
  pull_loop svc user now time_min time_max selected db {}

/-! ## Push phase: `_push_to_google` -/

/-- A remote write attempted by the push loop. -/
inductive PushAttempt where
  | insert (taskId : Nat) (calendarId : String)
  | update (taskId : Nat) (calendarId : String) (eventId : String)
deriving DecidableEq, Repr

/-- The task a push attempt was made for. -/
def PushAttempt.taskId : PushAttempt → Nat
  | .insert tid _ => tid
  | .update tid _ _ => tid

/-- The push-candidate filter, in the source's order: skip when the due
date is missing, the status is terminal, or sync is disabled; then push
when unlinked, or when linked with both timestamps present and
`updatedAt > lastSyncedAt`. -/
def needsPushFilter (t : Task) : Bool :=
  if t.dueDate.isNone then false
  else if isTerminalStatus t.status then false
  else if !boolTruthy t.syncToCalendar then false
  else if !strTruthy t.googleEventId then true
  else
    match t.updatedAt, t.lastSyncedAt with
    | some u, some l => decide (u > l)
    | _, _ => false

/-- The remote write a candidate task would lead to, if its event body
builds: an update targeting the task's own recorded calendar (falling
back to the push target) when linked, an insert on the push target
otherwise.  `none` when `build_google_calendar_event` raises (caught by
the per-task handler before any remote call). -/
def push_attempt_of (prefs : UserPreferences) (cal : String) (t : Task) :
    Option PushAttempt :=
  match build_google_calendar_event t prefs with
  | .error _ => none
  | .ok _ =>
    if strTruthy t.googleEventId then
      some (.update t.id (t.googleCalendarId.getD cal) (t.googleEventId.getD ""))
    else
      some (.insert t.id cal)

/-- Outcome of the remote call for a candidate: the returned event's id
on success, `none` when the build, the remote call, or the `event["id"]`
access fails. -/
def push_remote_result (svc : GService) (prefs : UserPreferences)
    (cal : String) (t : Task) : Option String :=
  match build_google_calendar_event t prefs with
  | .error _ => none
  | .ok body =>
    let res :=
      if strTruthy t.googleEventId then
        svc.update (t.googleCalendarId.getD cal) (t.googleEventId.getD "") body
      else
        svc.insert cal body
    match res with
    | .ok ev => ev.id
    | .error _ => none

/-- One iteration of the push loop: attempt the candidate inside the
per-task exception handler; on success persist the sync bookkeeping
(`googleEventId` from the returned event, `googleCalendarId` = the push
target, `syncedWithGoogle`, `lastSyncedAt = now`) and count it. -/
def push_process_task (svc : GService) (prefs : UserPreferences)
    (cal : String) (now : Nat) (db : Db) (t : Task) :
    Db × List PushAttempt × Nat :=
  match push_attempt_of prefs cal t with
  | none => (db, [], 0)
  | some att =>
    match push_remote_result svc prefs cal t with
    | none => (db, [att], 0)
    | some evId =>
      (db.updateTask t.id (fun tk =>
        { tk with googleEventId := some evId,
                  googleCalendarId := some cal,
                  syncedWithGoogle := some true,
                  lastSyncedAt := some now }),
       [att], 1)

/-- The push loop over the candidate list. -/
def push_loop (svc : GService) (prefs : UserPreferences) (cal : String)
    (now : Nat) : List Task → Db → Db × List PushAttempt × Nat
  | [], db => (db, [], 0)
  | t :: rest, db =>
    let (db1, a1, c1) := push_process_task svc prefs cal now db t
    let (db2, a2, c2) := push_loop svc prefs cal now rest db1
    (db2, a1 ++ a2, c1 + c2)

/-- `_push_to_google`: enumerate the user's tasks, filter the push
candidates, and run the loop against the single target calendar. -/
def push_to_google (svc : GService) (user : User) (db : Db)
    (prefs : UserPreferences) (cal : String) (now : Nat) :
    Db × List PushAttempt × Nat :=
  let all_tasks := db.tasks.filter fun t => t.user == user.id
  let tasks_to_push := all_tasks.filter needsPushFilter
  push_loop svc prefs cal now tasks_to_push db

/-! ## Per-user cycle: `_sync_user_calendar` -/

/-- Observable effects of one per-user cycle. -/
structure CycleLog where
  pull : PullLog
  pushAttempts : List PushAttempt
  pushedCount : Nat
deriving DecidableEq, Repr

/-- The empty cycle log (cycle aborted before any phase). -/
def CycleLog.empty : CycleLog := ⟨{}, [], 0⟩

/-- `_sync_user_calendar`: resolve credentials (the credential provider
`get_credentials_from_user` is passed in as `getCreds`); on `none` clear
the stored token fields when an access token was on file and abort with
`false`; otherwise run the pull phase over the selected calendars and
the push phase against the first of them. -/
def sync_user_calendar (getCreds : User → Option Unit) (svc : GService)
    (db : Db) (user : User) (now : Nat) : Db × Bool × CycleLog :=
  match getCreds user with
  | none =>
    if strTruthy user.googleAccessToken then
      (db.updateUser user.id (fun u =>
        { u with googleAccessToken := none, googleRefreshToken := none,
                 googleTokenExpiry := none }),
       false, CycleLog.empty)
    else
      (db, false, CycleLog.empty)
  | some _ =>
    let prefs := user.preferences
    let selected := selected_calendars_or_default user
    let (db1, plog) := pull_from_google svc user db selected now
    let target := selected.headD "primary"
    let (db2, atts, cnt) := push_to_google svc user db1 prefs target now
    (db2, true, ⟨plog, atts, cnt⟩)

/-- One iteration of the periodic sync loop for one user: the user
record is re-fetched from the store (as `_bidirectional_sync_all_users`
does), then the per-user cycle runs on that snapshot. -/
def run_cycle_for_user (getCreds : User → Option Unit) (svc : GService)
    (db : Db) (uid : Nat) (now : Nat) : Db × Bool × CycleLog :=
  match db.users.find? (fun u => u.id == uid) with
  | some u => sync_user_calendar getCreds svc db u now
  | none => (db, false, CycleLog.empty)

/-! ## Calendar selection: `select_calendars` (`app/routes/calendar.py`) -/

/-- The deselected set: previously selected (with the `["primary"]`
or-default) minus the newly selected ids. -/
def deselected_calendars (user : User) (newIds : List String) : List String :=
  (selected_calendars_or_default user).filter fun c => !(newIds.contains c)

/-- `task.get("googleCalendarId") in deselected_calendars` (an absent
field is never a member). -/
def task_in_deselected (user : User) (newIds : List String) (t : Task) : Bool :=
  match t.googleCalendarId with
  | some c => (deselected_calendars user newIds).contains c
  | none => false

/-- `select_calendars`: compute the deselected set, delete each of the
user's tasks linked to a deselected calendar, then store the new
selection.  Returns the new store and the deleted count. -/
def select_calendars (user : User) (newIds : List String) (db : Db) :
    Db × Nat :=
  let userTasks := db.tasks.filter fun t => t.user == user.id
  let toDelete := userTasks.filter (task_in_deselected user newIds)
  let db' := toDelete.foldl (fun d t => d.deleteTaskOnce t.id) db
  let db'' := db'.updateUser user.id fun u =>
    { u with googleSelectedCalendars := some newIds }
  (db'', toDelete.length)

/-! # Helper lemmas -/

theorem pull_process_event_users (user : User) (cal : String) (now : Nat)
    (db : Db) (e : RemoteEvent) :
    (pull_process_event user cal now db e).1.users = db.users := by
  simp only [pull_process_event, Db.updateTask, Db.insertTask]
  repeat' split
  all_goals rfl

theorem pull_calendar_events_users (user : User) (cal : String) (now : Nat) :
    ∀ (events : List RemoteEvent) (db : Db) (log : PullLog),
      (pull_calendar_events user cal now events db log).1.users = db.users := by
  intro events
  induction events with
  | nil => intro db log; rfl
  | cons e rest ih =>
    intro db log
    simp only [pull_calendar_events]
    rw [ih]
    exact pull_process_event_users user cal now db e

/-- The per-calendar event processing only appends to the overwrite and
creation logs. -/
theorem pull_calendar_events_log (user : User) (cal : String) (now : Nat) :
    ∀ (events : List RemoteEvent) (db : Db) (log : PullLog),
      (pull_calendar_events user cal now events db log).2.listedCalendars =
        log.listedCalendars
      ∧ (pull_calendar_events user cal now events db log).2.abortedOnRevocation =
        log.abortedOnRevocation := by
  intro events
  induction events with
  | nil => intro db log; exact ⟨rfl, rfl⟩
  | cons e rest ih =>
    intro db log
    simp only [pull_calendar_events]
    exact ih _ _

/-- Under listings that never carry the revocation signature, the pull
loop ends by stamping the watermark and touches no other user field. -/
theorem pull_loop_users_no_revocation (svc : GService) (user : User)
    (now : Nat) (tmin tmax : Int)
    (hnr : ∀ c tmin' tmax' e, svc.list c tmin' tmax' = .error e →
      isRevocationError e = false) :
    ∀ (cs : List String) (db : Db) (log : PullLog),
      (pull_loop svc user now tmin tmax cs db log).1.users =
        db.users.map (fun u => if u.id = user.id then
          { u with lastCalendarSync := some now } else u)
      ∧ (pull_loop svc user now tmin tmax cs db log).2.abortedOnRevocation =
          log.abortedOnRevocation := by
  intro cs
  induction cs with
  | nil => intro db log; exact ⟨rfl, rfl⟩
  | cons c rest ih =>
    intro db log
    cases hl : svc.list c tmin tmax with
    | ok events =>
      simp only [pull_loop, hl]
      obtain ⟨h1, h2⟩ := ih (pull_calendar_events user c now events db _).1
        (pull_calendar_events user c now events db _).2
      refine ⟨?_, ?_⟩
      · rw [h1, pull_calendar_events_users]
      · rw [h2, (pull_calendar_events_log user c now events db _).2]
    | error e =>
      simp only [pull_loop, hl, hnr c tmin tmax e hl, Bool.false_eq_true, if_false]
      exact ih db _

/-- On the first revocation-signature listing error the pull loop clears
the credential fields (calendar selection included), marks the abort,
and returns without reaching the watermark update. -/
theorem pull_loop_revocation_abort (svc : GService) (user : User)
    (now : Nat) (tmin tmax : Int) (c : String) (e : String)
    (hrev : ∀ tmin' tmax', svc.list c tmin' tmax' = .error e)
    (hsig : isRevocationError e = true) :
    ∀ (pre : List String)
      (hpre : ∀ c' ∈ pre, ∀ tmin' tmax' e', svc.list c' tmin' tmax' = .error e' →
        isRevocationError e' = false)
      (post : List String) (db : Db) (log : PullLog),
      (pull_loop svc user now tmin tmax (pre ++ c :: post) db log).1.users =
        db.users.map (fun u => if u.id = user.id then
          { u with googleAccessToken := none, googleRefreshToken := none,
                   googleTokenExpiry := none,
                   googleSelectedCalendars := none } else u)
      ∧ (pull_loop svc user now tmin tmax (pre ++ c :: post) db log).2.abortedOnRevocation = true
      ∧ (pull_loop svc user now tmin tmax (pre ++ c :: post) db log).2.listedCalendars =
          log.listedCalendars ++ pre ++ [c] := by
  intro pre
  induction pre with
  | nil =>
    intro _ post db log
    simp [List.nil_append, pull_loop, hrev tmin tmax, hsig, Db.updateUser]
  | cons c0 rest ih =>
    intro hpre post db log
    have hpre' := fun c' hc' => hpre c' (List.mem_cons_of_mem _ hc')
    cases hl : svc.list c0 tmin tmax with
    | ok events =>
      rw [List.cons_append]
      simp only [pull_loop, hl]
      obtain ⟨h1, h2, h3⟩ := ih hpre' post
        (pull_calendar_events user c0 now events db
          { log with listedCalendars := log.listedCalendars ++ [c0] }).1
        (pull_calendar_events user c0 now events db
          { log with listedCalendars := log.listedCalendars ++ [c0] }).2
      refine ⟨?_, h2, ?_⟩
      · rw [h1, pull_calendar_events_users]
      · rw [h3, (pull_calendar_events_log user c0 now events db _).1]
        simp
    | error e' =>
      rw [List.cons_append]
      simp only [pull_loop, hl,
        hpre c0 (List.mem_cons_self c0 rest) tmin tmax e' hl,
        Bool.false_eq_true, if_false]
      obtain ⟨h1, h2, h3⟩ := ih hpre' post db
        { log with listedCalendars := log.listedCalendars ++ [c0] }
      refine ⟨h1, h2, ?_⟩
      rw [h3]; simp

/-! ## Push-loop characterization -/

/-- Whether the whole per-candidate pipeline (build, remote call,
`event["id"]` access) succeeds for a candidate; this is exactly what the
success counter counts. -/
def push_succeeds (svc : GService) (prefs : UserPreferences) (cal : String)
    (t : Task) : Bool :=
  (push_remote_result svc prefs cal t).isSome

/-- The store effect of processing one candidate. -/
def push_apply (svc : GService) (prefs : UserPreferences) (cal : String)
    (now : Nat) (db : Db) (t : Task) : Db :=
  match push_remote_result svc prefs cal t with
  | none => db
  | some evId =>
    db.updateTask t.id (fun tk =>
      { tk with googleEventId := some evId,
                googleCalendarId := some cal,
                syncedWithGoogle := some true,
                lastSyncedAt := some now })

theorem push_remote_result_none_of_attempt_none (svc : GService)
    (prefs : UserPreferences) (cal : String) (t : Task)
    (h : push_attempt_of prefs cal t = none) :
    push_remote_result svc prefs cal t = none := by
  unfold push_attempt_of at h
  unfold push_remote_result
  cases hb : build_google_calendar_event t prefs with
  | error e => rfl
  | ok body =>
    rw [hb] at h
    dsimp only at h
    split at h <;> simp at h

theorem push_attempt_of_taskId (prefs : UserPreferences) (cal : String)
    (t : Task) (a : PushAttempt) (h : push_attempt_of prefs cal t = some a) :
    a.taskId = t.id := by
  unfold push_attempt_of at h
  split at h
  · simp at h
  · split at h <;> (cases h; rfl)

theorem push_attempt_of_isSome_of_succeeds (svc : GService)
    (prefs : UserPreferences) (cal : String) (t : Task)
    (h : push_succeeds svc prefs cal t = true) :
    (push_attempt_of prefs cal t).isSome = true := by
  cases ha : push_attempt_of prefs cal t with
  | some a => rfl
  | none =>
    have := push_remote_result_none_of_attempt_none svc prefs cal t ha
    rw [push_succeeds, this] at h
    simp at h

theorem push_process_task_eq (svc : GService) (prefs : UserPreferences)
    (cal : String) (now : Nat) (db : Db) (t : Task) :
    push_process_task svc prefs cal now db t =
      (push_apply svc prefs cal now db t,
       (push_attempt_of prefs cal t).toList,
       if push_succeeds svc prefs cal t then 1 else 0) := by
  unfold push_process_task push_apply push_succeeds
  cases ha : push_attempt_of prefs cal t with
  | none =>
    rw [push_remote_result_none_of_attempt_none svc prefs cal t ha]
    rfl
  | some a =>
    cases hr : push_remote_result svc prefs cal t <;> rfl

/-- The push loop in closed form: the store is the fold of the
per-candidate effects, the attempts are the per-candidate attempts in
order, and the count is the number of succeeding candidates. -/
theorem push_loop_spec (svc : GService) (prefs : UserPreferences)
    (cal : String) (now : Nat) :
    ∀ (l : List Task) (db : Db),
      push_loop svc prefs cal now l db =
        (l.foldl (push_apply svc prefs cal now) db,
         l.flatMap (fun t => (push_attempt_of prefs cal t).toList),
         (l.filter (push_succeeds svc prefs cal)).length) := by
  intro l
  induction l with
  | nil => intro db; rfl
  | cons t rest ih =>
    intro db
    simp only [push_loop, push_process_task_eq, ih, List.flatMap_cons,
      List.foldl_cons, List.filter_cons]
    split <;> simp [Nat.add_comm]

/-- The push candidates of a store: the user's tasks passing the
eligibility filter, in store order. -/
def push_candidates (user : User) (db : Db) : List Task :=
  (db.tasks.filter fun t => t.user == user.id).filter needsPushFilter

theorem push_to_google_eq (svc : GService) (user : User) (db : Db)
    (prefs : UserPreferences) (cal : String) (now : Nat) :
    push_to_google svc user db prefs cal now =
      ((push_candidates user db).foldl (push_apply svc prefs cal now) db,
       (push_candidates user db).flatMap
         (fun t => (push_attempt_of prefs cal t).toList),
       ((push_candidates user db).filter (push_succeeds svc prefs cal)).length) := by
  unfold push_to_google push_candidates
  exact push_loop_spec svc prefs cal now _ db

theorem boolTruthy_iff (o : Option Bool) : boolTruthy o = true ↔ o = some true := by
  cases o with
  | none => simp [boolTruthy]
  | some b => cases b <;> simp [boolTruthy]

/-- The eligibility filter, spelled out. -/
theorem needsPushFilter_iff (t : Task) :
    needsPushFilter t = true ↔
      (t.syncToCalendar = some true ∧ t.dueDate.isSome = true
       ∧ isTerminalStatus t.status = false
       ∧ (strTruthy t.googleEventId = false
          ∨ ∃ u l, t.updatedAt = some u ∧ t.lastSyncedAt = some l ∧ l < u)) := by
  rw [← boolTruthy_iff]
  unfold needsPushFilter
  cases hdd : t.dueDate <;> cases hb : boolTruthy t.syncToCalendar <;>
    cases hts : isTerminalStatus t.status <;>
      cases hge : strTruthy t.googleEventId <;>
        cases hu : t.updatedAt <;> cases hl : t.lastSyncedAt <;>
          simp [*]
  all_goals omega

/-- The event body builds whenever the task has a due date and any
present, nonempty `dueTime` parses as `"HH:MM"`. -/
theorem build_ok_of (t : Task) (prefs : UserPreferences)
    (hd : t.dueDate.isSome = true)
    (hwf : ∀ s, t.dueTime = some s → s ≠ "" → ∃ hm, parseHM s = .ok hm) :
    ∃ body, build_google_calendar_event t prefs = .ok body := by
  rcases hdd : t.dueDate with _ | d
  · rw [hdd] at hd; simp at hd
  unfold build_google_calendar_event
  rw [hdd]
  rcases hdt : t.dueTime with _ | s
  · exact ⟨_, rfl⟩
  · by_cases hs : s = ""
    · subst hs
      exact ⟨_, rfl⟩
    · obtain ⟨⟨hh, mm⟩, hp⟩ := hwf s hdt hs
      have hT : strTruthy (some s) = true := by
        simp [strTruthy, hs]
      simp only [hT, Bool.not_true, hp]
      exact ⟨_, rfl⟩

/-! # Claim C1 -/

/-- **C1** (amended).  In the push phase a push attempt (a remote insert
or update) occurs for a task exactly when `syncToCalendar` is truthy,
`dueDate` is present, the status is not terminal
(completed/deleted/skipped), and either the task is unlinked
(`googleEventId` absent/empty) or **both** `updatedAt` and
`lastSyncedAt` are present with `updatedAt > lastSyncedAt` — contrary to
the claim, a linked task whose `lastSyncedAt` is absent is *not* pushed
(the filter requires both timestamps).  Stated for any task of the user
whose present `dueTime` parses (the data model's `"HH:MM"` shape). -/
theorem c1_push_eligibility (svc : GService) (user : User) (db : Db)
    (prefs : UserPreferences) (cal : String) (now : Nat) (t : Task)
    (hids : (db.tasks.map Task.id).Nodup)
    (ht : t ∈ db.tasks) (huser : t.user = user.id)
    (hwf : ∀ s, t.dueTime = some s → s ≠ "" → ∃ hm, parseHM s = .ok hm) :
    (∃ a ∈ (push_to_google svc user db prefs cal now).2.1, a.taskId = t.id)
    ↔ (t.syncToCalendar = some true ∧ t.dueDate.isSome = true
       ∧ isTerminalStatus t.status = false
       ∧ (strTruthy t.googleEventId = false
          ∨ ∃ u l, t.updatedAt = some u ∧ t.lastSyncedAt = some l ∧ l < u)) := by
  rw [push_to_google_eq]
  constructor
  · rintro ⟨a, ha, hid⟩
    rw [List.mem_flatMap] at ha
    obtain ⟨t', ht', ha⟩ := ha
    cases hatt : push_attempt_of prefs cal t' with
    | none => rw [hatt] at ha; simp at ha
    | some a' =>
      rw [hatt] at ha
      simp only [Option.toList_some, List.mem_singleton] at ha
      subst ha
      have hta : a.taskId = t'.id := push_attempt_of_taskId _ _ _ _ hatt
      have ht'mem : t' ∈ db.tasks := by
        have := List.mem_filter.mp ht'
        exact (List.mem_filter.mp this.1).1
      have hteq : t' = t :=
        List.inj_on_of_nodup_map hids ht'mem ht (by rw [← hta, hid])
      subst hteq
      exact (needsPushFilter_iff t').mp (List.mem_filter.mp ht').2
  · intro hrhs
    have hfilter : needsPushFilter t = true := (needsPushFilter_iff t).mpr hrhs
    have htc : t ∈ push_candidates user db := by
      unfold push_candidates
      rw [List.mem_filter, List.mem_filter]
      exact ⟨⟨ht, by simp [huser]⟩, hfilter⟩
    obtain ⟨body, hbody⟩ := build_ok_of t prefs hrhs.2.1 hwf
    have hatt : ∃ a, push_attempt_of prefs cal t = some a := by
      unfold push_attempt_of
      rw [hbody]
      dsimp only
      split <;> exact ⟨_, rfl⟩
    obtain ⟨a, hatt⟩ := hatt
    exact ⟨a, List.mem_flatMap.mpr ⟨t, htc, by simp [hatt]⟩,
      push_attempt_of_taskId _ _ _ _ hatt⟩

/-- Fixture service: listings empty, inserts yield a fresh event id,
updates echo the event id. -/
def c1svc : GService :=
  { list := fun _ _ _ => .ok []
    insert := fun _ _ => .ok { id := some "new-ev" }
    update := fun _ e _ => .ok { id := some e } }

/-- Fixture: linked, sync-enabled, active task whose `lastSyncedAt` is
absent. -/
def c1task : Task :=
  { id := 1, user := 7, dueDate := some 20462, status := some "scheduled",
    syncToCalendar := some true, googleEventId := some "e1",
    googleCalendarId := some "calA", lastSyncedAt := none,
    updatedAt := some 100 }

/-- Fixture user for the push phase. -/
def c1user : User := { id := 7 }

/-- Fixture store holding only `c1task`. -/
def c1db : Db := { users := [c1user], tasks := [c1task], lists := [], nextTaskId := 10 }

/-- Witness for `c1_push_eligibility` at the fixture (the instantiated
equivalence). -/
theorem c1_push_eligibility_witness :
    (∃ a ∈ (push_to_google c1svc c1user c1db ⟨none⟩ "calA" 1000).2.1,
        a.taskId = c1task.id)
    ↔ (c1task.syncToCalendar = some true ∧ c1task.dueDate.isSome = true
       ∧ isTerminalStatus c1task.status = false
       ∧ (strTruthy c1task.googleEventId = false
          ∨ ∃ u l, c1task.updatedAt = some u ∧ c1task.lastSyncedAt = some l
              ∧ l < u)) :=
  c1_push_eligibility c1svc c1user c1db ⟨none⟩ "calA" 1000 c1task
    (by decide) (by decide) (by decide)
    (fun s h => by simp [c1task] at h)

/-- **C1 counterexample.**  `c1task` satisfies the claim's eligibility
predicate (sync enabled, due date present, non-terminal status, linked
with `lastSyncedAt` absent — which the claim counts as "needs push"),
yet the push phase makes no attempt and pushes nothing. -/
theorem c1_counterexample :
    (c1task.syncToCalendar = some true ∧ c1task.dueDate.isSome = true
     ∧ isTerminalStatus c1task.status = false
     ∧ c1task.googleEventId.isSome = true ∧ c1task.lastSyncedAt = none
     ∧ c1task.updatedAt = some 100)
    ∧ (push_to_google c1svc c1user c1db ⟨none⟩ "calA" 1000).2.1 = []
    ∧ (push_to_google c1svc c1user c1db ⟨none⟩ "calA" 1000).2.2 = 0 := by
  decide

/-! # Claim C7 -/

/-- **C7** (confirmed).  Push candidates are processed in isolation:
when the candidate list splits as `pre ++ bad :: post` with every
candidate of `pre` and `post` succeeding and `bad` failing at its remote
call or its subsequent bookkeeping (after its body built, so an attempt
is made), then every candidate after `bad` still gets a push attempt,
the success count excludes `bad` and equals N−1, and every candidate
produced exactly one attempt (the loop — a total function — lets no
exception escape). -/
theorem c7_push_error_isolation (svc : GService) (user : User) (db : Db)
    (prefs : UserPreferences) (cal : String) (now : Nat)
    (pre post : List Task) (bad : Task)
    (hcand : push_candidates user db = pre ++ bad :: post)
    (hpre : ∀ t ∈ pre, push_succeeds svc prefs cal t = true)
    (hpost : ∀ t ∈ post, push_succeeds svc prefs cal t = true)
    (hbadAtt : (push_attempt_of prefs cal bad).isSome = true)
    (hbad : push_succeeds svc prefs cal bad = false) :
    (push_to_google svc user db prefs cal now).2.2 + 1 =
      (pre ++ bad :: post).length
    ∧ (∀ t ∈ post, ∃ a ∈ (push_to_google svc user db prefs cal now).2.1,
        a.taskId = t.id)
    ∧ (push_to_google svc user db prefs cal now).2.1.length =
        (pre ++ bad :: post).length := by
  rw [push_to_google_eq, hcand]
  refine ⟨?_, ?_, ?_⟩
  · rw [List.filter_append, List.filter_cons]
    rw [List.filter_eq_self.mpr hpre, List.filter_eq_self.mpr hpost, hbad]
    simp only [Bool.false_eq_true, if_false, List.length_append, List.length_cons]
    omega
  · intro t htp
    have hs := hpost t htp
    have hatt := push_attempt_of_isSome_of_succeeds svc prefs cal t hs
    cases ha : push_attempt_of prefs cal t with
    | none => rw [ha] at hatt; simp at hatt
    | some a =>
      refine ⟨a, List.mem_flatMap.mpr ⟨t, ?_, by simp [ha]⟩,
        push_attempt_of_taskId _ _ _ _ ha⟩
      exact List.mem_append_right _ (List.mem_cons_of_mem _ htp)
  · rw [List.length_flatMap]
    have hone : ∀ t ∈ pre ++ bad :: post,
        ((push_attempt_of prefs cal t).toList).length = 1 := by
      intro t htm
      rcases List.mem_append.mp htm with h | h
      · have := push_attempt_of_isSome_of_succeeds svc prefs cal t (hpre t h)
        cases ha : push_attempt_of prefs cal t with
        | none => rw [ha] at this; simp at this
        | some a => simp [ha]
      · rcases List.mem_cons.mp h with h | h
        · subst h
          cases ha : push_attempt_of prefs cal t with
          | none => rw [ha] at hbadAtt; simp at hbadAtt
          | some a => simp [ha]
        · have := push_attempt_of_isSome_of_succeeds svc prefs cal t (hpost t h)
          cases ha : push_attempt_of prefs cal t with
          | none => rw [ha] at this; simp at this
          | some a => simp [ha]
    simp only [Function.comp_def]
    rw [List.map_congr_left hone]
    simp [List.map_const', List.sum_replicate]
    omega

/-- Fixture service for C7: inserting a body whose summary is `"B"`
fails; everything else succeeds. -/
def c7svc : GService :=
  { list := fun _ _ _ => .ok []
    insert := fun _ b =>
      if b.summary = "B" then .error "HttpError 500" else .ok { id := some "ev" }
    update := fun _ e _ => .ok { id := some e } }

/-- C7 fixture tasks: three unlinked push candidates, the middle one
destined to fail. -/
def c7taskA : Task :=
  { id := 1, user := 7, title := some "A", dueDate := some 20462,
    status := some "scheduled", syncToCalendar := some true }

/-- Middle candidate (its remote insert raises). -/
def c7taskB : Task :=
  { id := 2, user := 7, title := some "B", dueDate := some 20462,
    status := some "scheduled", syncToCalendar := some true }

/-- Last candidate. -/
def c7taskC : Task :=
  { id := 3, user := 7, title := some "C", dueDate := some 20462,
    status := some "scheduled", syncToCalendar := some true }

/-- C7 fixture store. -/
def c7db : Db :=
  { users := [c1user], tasks := [c7taskA, c7taskB, c7taskC], lists := [],
    nextTaskId := 10 }

/-- Witness for `c7_push_error_isolation` at the fixture: N = 3,
candidate 2 of 3 fails, success count 2, all three attempted. -/
theorem c7_push_error_isolation_witness :
    (push_to_google c7svc c1user c7db ⟨none⟩ "calA" 1000).2.2 + 1 =
      ([c7taskA] ++ c7taskB :: [c7taskC]).length
    ∧ (∀ t ∈ [c7taskC],
        ∃ a ∈ (push_to_google c7svc c1user c7db ⟨none⟩ "calA" 1000).2.1,
          a.taskId = t.id)
    ∧ (push_to_google c7svc c1user c7db ⟨none⟩ "calA" 1000).2.1.length =
        ([c7taskA] ++ c7taskB :: [c7taskC]).length :=
  c7_push_error_isolation c7svc c1user c7db ⟨none⟩ "calA" 1000
    [c7taskA] [c7taskC] c7taskB (by decide) (by decide) (by decide)
    (by decide) (by decide)

/-! # Claim C10 -/

/-- The per-record effect of one candidate's push on one stored task. -/
def push_record_step (svc : GService) (prefs : UserPreferences)
    (cal : String) (now : Nat) (cand tk : Task) : Task :=
  match push_remote_result svc prefs cal cand with
  | none => tk
  | some evId =>
    if tk.id = cand.id then
      { tk with googleEventId := some evId,
                googleCalendarId := some cal,
                syncedWithGoogle := some true,
                lastSyncedAt := some now }
    else tk

theorem push_apply_fields (svc : GService) (prefs : UserPreferences)
    (cal : String) (now : Nat) (db : Db) (t : Task) :
    (push_apply svc prefs cal now db t).tasks =
      db.tasks.map (push_record_step svc prefs cal now t)
    ∧ (push_apply svc prefs cal now db t).users = db.users
    ∧ (push_apply svc prefs cal now db t).lists = db.lists
    ∧ (push_apply svc prefs cal now db t).nextTaskId = db.nextTaskId := by
  unfold push_apply push_record_step
  cases hr : push_remote_result svc prefs cal t with
  | none => simp
  | some evId => simp [Db.updateTask]

theorem push_foldl_fields (svc : GService) (prefs : UserPreferences)
    (cal : String) (now : Nat) :
    ∀ (l : List Task) (db : Db),
      (l.foldl (push_apply svc prefs cal now) db).tasks =
        db.tasks.map (fun tk =>
          l.foldl (fun acc cand => push_record_step svc prefs cal now cand acc) tk)
      ∧ (l.foldl (push_apply svc prefs cal now) db).users = db.users
      ∧ (l.foldl (push_apply svc prefs cal now) db).lists = db.lists
      ∧ (l.foldl (push_apply svc prefs cal now) db).nextTaskId = db.nextTaskId := by
  intro l
  induction l with
  | nil => intro db; simp
  | cons t rest ih =>
    intro db
    simp only [List.foldl_cons]
    obtain ⟨h1, h2, h3, h4⟩ := ih (push_apply svc prefs cal now db t)
    obtain ⟨g1, g2, g3, g4⟩ := push_apply_fields svc prefs cal now db t
    refine ⟨?_, by rw [h2, g2], by rw [h3, g3], by rw [h4, g4]⟩
    rw [h1, g1, List.map_map]
    rfl

theorem push_record_step_id (svc : GService) (prefs : UserPreferences)
    (cal : String) (now : Nat) (cand tk : Task) :
    (push_record_step svc prefs cal now cand tk).id = tk.id := by
  unfold push_record_step
  split
  · rfl
  · split <;> rfl

theorem push_foldl_record_skip (svc : GService) (prefs : UserPreferences)
    (cal : String) (now : Nat) :
    ∀ (l : List Task) (tk : Task), (∀ cand ∈ l, cand.id ≠ tk.id) →
      l.foldl (fun acc cand => push_record_step svc prefs cal now cand acc) tk = tk := by
  intro l
  induction l with
  | nil => intro tk _; rfl
  | cons c rest ih =>
    intro tk h
    simp only [List.foldl_cons]
    have hc : push_record_step svc prefs cal now c tk = tk := by
      unfold push_record_step
      split
      · rfl
      · rw [if_neg]
        intro he
        exact h c (List.mem_cons_self c rest) (by rw [← he])
    rw [hc]
    exact ih tk (fun cand hm => h cand (List.mem_cons_of_mem _ hm))

/-- **C10** (confirmed).  For a linked push candidate the remote update
call targets the task's own recorded `googleCalendarId`, but the
bookkeeping written on success sets the stored `googleCalendarId` to the
push-phase target calendar; so when the recorded calendar differs from
the target, the stored field no longer names the calendar the remote
event was just updated in. -/
theorem c10_calendar_id_overwrite (svc : GService) (user : User) (db : Db)
    (prefs : UserPreferences) (cal : String) (now : Nat) (t : Task)
    (eid c : String) (ev : RemoteEvent) (i : String)
    (hids : (db.tasks.map Task.id).Nodup)
    (ht : t ∈ db.tasks) (huser : t.user = user.id)
    (hfilter : needsPushFilter t = true)
    (hlinked : t.googleEventId = some eid) (heid : eid ≠ "")
    (hrec : t.googleCalendarId = some c)
    (hwf : ∀ s, t.dueTime = some s → s ≠ "" → ∃ hm, parseHM s = .ok hm)
    (hupd : ∀ body, build_google_calendar_event t prefs = .ok body →
      svc.update c eid body = .ok ev)
    (hev : ev.id = some i) :
    PushAttempt.update t.id c eid ∈ (push_to_google svc user db prefs cal now).2.1
    ∧ { t with googleEventId := some i, googleCalendarId := some cal,
               syncedWithGoogle := some true, lastSyncedAt := some now } ∈
        (push_to_google svc user db prefs cal now).1.tasks
    ∧ (c ≠ cal →
        ({ t with googleEventId := some i, googleCalendarId := some cal,
                  syncedWithGoogle := some true,
                  lastSyncedAt := some now } : Task).googleCalendarId ≠ some c) := by
  have hT : strTruthy t.googleEventId = true := by
    rw [hlinked]; simp [strTruthy, heid]
  have hdd : t.dueDate.isSome = true := ((needsPushFilter_iff t).mp hfilter).2.1
  obtain ⟨body, hbody⟩ := build_ok_of t prefs hdd hwf
  have hremote : push_remote_result svc prefs cal t = some i := by
    unfold push_remote_result
    rw [hbody]
    dsimp only
    rw [hT]
    simp only [if_pos]
    rw [hrec, hlinked]
    simp only [Option.getD_some]
    rw [hupd body hbody]
    exact hev
  have hatt : push_attempt_of prefs cal t = some (.update t.id c eid) := by
    unfold push_attempt_of
    rw [hbody]
    dsimp only
    rw [hT]
    simp only [if_pos]
    rw [hrec, hlinked]
    rfl
  have htc : t ∈ push_candidates user db := by
    unfold push_candidates
    rw [List.mem_filter, List.mem_filter]
    exact ⟨⟨ht, by simp [huser]⟩, hfilter⟩
  rw [push_to_google_eq]
  refine ⟨List.mem_flatMap.mpr ⟨t, htc, by simp [hatt]⟩, ?_, ?_⟩
  · obtain ⟨h1, _, _, _⟩ := push_foldl_fields svc prefs cal now
      (push_candidates user db) db
    rw [h1]
    have hcid : (push_candidates user db).map Task.id
        |>.Nodup := by
      have hsub : (push_candidates user db).Sublist db.tasks :=
        (List.filter_sublist _).trans (List.filter_sublist _)
      exact (hsub.map Task.id).nodup hids
    obtain ⟨l1, l2, hsplit⟩ := List.append_of_mem htc
    rw [hsplit] at hcid
    simp only [List.map_append, List.map_cons] at hcid
    obtain ⟨hn1, hn2, hdisj⟩ := List.nodup_append.mp hcid
    have hne : ∀ cand ∈ l1 ++ l2, cand.id ≠ t.id := by
      intro cand hcm heq
      rcases List.mem_append.mp hcm with h | h
      · exact hdisj (List.mem_map_of_mem Task.id h)
          (show cand.id ∈ t.id :: l2.map Task.id by
            rw [heq]; exact List.mem_cons_self _ _)
      · exact (List.nodup_cons.mp hn2).1
          (by rw [← heq]; exact List.mem_map_of_mem Task.id h)
    have hF : (push_candidates user db).foldl
        (fun acc cand => push_record_step svc prefs cal now cand acc) t =
        { t with googleEventId := some i, googleCalendarId := some cal,
                 syncedWithGoogle := some true, lastSyncedAt := some now } := by
      rw [hsplit, List.foldl_append, List.foldl_cons]
      rw [push_foldl_record_skip svc prefs cal now l1 t
        (fun cand hm => hne cand (List.mem_append_left _ hm))]
      have hstep : push_record_step svc prefs cal now t t =
          { t with googleEventId := some i, googleCalendarId := some cal,
                   syncedWithGoogle := some true, lastSyncedAt := some now } := by
        unfold push_record_step
        rw [hremote]
        simp
      rw [hstep]
      apply push_foldl_record_skip
      intro cand hm
      simp only
      exact hne cand (List.mem_append_right _ hm)
    rw [← hF]
    exact List.mem_map_of_mem _ ht
  · intro hne heq
    exact hne (by cases heq; rfl)

/-- C10 fixture: linked candidate whose recorded calendar (`"calB"`)
differs from the push-phase target (`"calA"`). -/
def c10task : Task :=
  { id := 1, user := 7, dueDate := some 20462, status := some "scheduled",
    syncToCalendar := some true, googleEventId := some "e1",
    googleCalendarId := some "calB", lastSyncedAt := some 50,
    updatedAt := some 100 }

/-- C10 fixture store. -/
def c10db : Db :=
  { users := [c1user], tasks := [c10task], lists := [], nextTaskId := 10 }

/-- Witness for `c10_calendar_id_overwrite` at the fixture: the update
targets `"calB"`, the stored field becomes `"calA"`. -/
theorem c10_calendar_id_overwrite_witness :
    PushAttempt.update c10task.id "calB" "e1" ∈
      (push_to_google c1svc c1user c10db ⟨none⟩ "calA" 1000).2.1
    ∧ { c10task with googleEventId := some "e1", googleCalendarId := some "calA",
                     syncedWithGoogle := some true, lastSyncedAt := some 1000 } ∈
        (push_to_google c1svc c1user c10db ⟨none⟩ "calA" 1000).1.tasks
    ∧ ("calB" ≠ "calA" →
        ({ c10task with googleEventId := some "e1",
                        googleCalendarId := some "calA",
                        syncedWithGoogle := some true,
                        lastSyncedAt := some 1000 } : Task).googleCalendarId ≠
          some "calB") :=
  c10_calendar_id_overwrite c1svc c1user c10db ⟨none⟩ "calA" 1000 c10task
    "e1" "calB" { id := some "e1" } "e1" (by decide) (by decide) (by decide)
    (by decide) (by decide) (by decide) (by decide)
    (fun s h => by simp [c10task] at h)
    (fun body _ => by simp [c1svc]) (by decide)

/-! # Claim C4 -/

/-- **C4** (amended).  When credential resolution returns `None` for a
user with a stored access token, the cycle clears the token fields
(`googleAccessToken`, `googleRefreshToken`, `googleTokenExpiry`) on the
user record, aborts with a "not connected" (`false`) result, and touches
no task; the calendar selection (`googleSelectedCalendars`) and the
last-sync watermark (`lastCalendarSync`) are left unchanged — contrary
to the claim, which says they are cleared too. -/
theorem c4_credential_clear (getCreds : User → Option Unit) (svc : GService)
    (db : Db) (user : User) (now : Nat)
    (hcreds : getCreds user = none)
    (htok : strTruthy user.googleAccessToken = true) :
    (sync_user_calendar getCreds svc db user now).2.1 = false
    ∧ (sync_user_calendar getCreds svc db user now).1.tasks = db.tasks
    ∧ (sync_user_calendar getCreds svc db user now).1.users =
        db.users.map (fun u => if u.id = user.id then
          { u with googleAccessToken := none, googleRefreshToken := none,
                   googleTokenExpiry := none } else u) := by
  simp [sync_user_calendar, hcreds, htok, Db.updateUser]

/-- Trivial service whose calls are never reached. -/
def svcInert : GService :=
  { list := fun _ _ _ => .error "unused"
    insert := fun _ _ => .error "unused"
    update := fun _ _ _ => .error "unused" }

/-- Fixture user with a stored token, a calendar selection and a
watermark. -/
def c4user : User :=
  { id := 7, googleAccessToken := some "tok", googleRefreshToken := some "ref",
    googleSelectedCalendars := some ["calA"], lastCalendarSync := some 5 }

/-- Fixture store holding only `c4user`. -/
def c4db : Db := { users := [c4user], tasks := [], lists := [], nextTaskId := 0 }

/-- Witness for `c4_credential_clear` at the fixture. -/
theorem c4_credential_clear_witness :
    (sync_user_calendar (fun _ => none) svcInert c4db c4user 100).2.1 = false
    ∧ (sync_user_calendar (fun _ => none) svcInert c4db c4user 100).1.tasks = c4db.tasks
    ∧ (sync_user_calendar (fun _ => none) svcInert c4db c4user 100).1.users =
        c4db.users.map (fun u => if u.id = c4user.id then
          { u with googleAccessToken := none, googleRefreshToken := none,
                   googleTokenExpiry := none } else u) :=
  c4_credential_clear (fun _ => none) svcInert c4db c4user 100 rfl (by decide)

/-- **C4 counterexample.**  After the credentials-`None` abort the
user's `googleSelectedCalendars` and `lastCalendarSync` survive, though
the claim says the cycle clears the calendar selection and the last-sync
watermark. -/
theorem c4_counterexample :
    (sync_user_calendar (fun _ => none) svcInert c4db c4user 100).1.users.map
        (fun u => (u.googleSelectedCalendars, u.lastCalendarSync)) =
      [(some ["calA"], some 5)]
    ∧ (sync_user_calendar (fun _ => none) svcInert c4db c4user 100).2.1 = false := by
  decide

/-! # Claim C5 -/

/-- **C5** (amended).  The pull phase sets the user's
`lastCalendarSync` watermark to now after all selected calendars have
been attempted, even when some listings failed with ordinary errors;
but when a listing fails with the revocation signature the loop clears
the stored credentials (calendar selection included) and returns before
the watermark update, so the watermark is left unchanged — contrary to
the claim, which says it is set in the revocation-abort case as well. -/
theorem c5_watermark_after_pull (svc : GService) (user : User) (db : Db)
    (selected : List String) (now : Nat) :
    ((∀ c tmin tmax e, svc.list c tmin tmax = .error e →
        isRevocationError e = false) →
      (pull_from_google svc user db selected now).1.users =
        db.users.map (fun u => if u.id = user.id then
          { u with lastCalendarSync := some now } else u)
      ∧ (pull_from_google svc user db selected now).2.abortedOnRevocation = false)
    ∧ (∀ pre c post e,
        selected = pre ++ c :: post →
        (∀ c' ∈ pre, ∀ tmin tmax e', svc.list c' tmin tmax = .error e' →
          isRevocationError e' = false) →
        (∀ tmin tmax, svc.list c tmin tmax = .error e) →
        isRevocationError e = true →
        (pull_from_google svc user db selected now).1.users =
          db.users.map (fun u => if u.id = user.id then
            { u with googleAccessToken := none, googleRefreshToken := none,
                     googleTokenExpiry := none,
                     googleSelectedCalendars := none } else u)
        ∧ (pull_from_google svc user db selected now).2.abortedOnRevocation = true
        ∧ (pull_from_google svc user db selected now).2.listedCalendars =
            pre ++ [c]) := by
  constructor
  · intro hnr
    exact pull_loop_users_no_revocation svc user now _ _ hnr selected db {}
  · intro pre c post e hsel hpre hrev hsig
    subst hsel
    obtain ⟨h1, h2, h3⟩ := pull_loop_revocation_abort svc user now
      (match user.lastCalendarSync with
        | some ls => (ls : Int) - 60
        | none => (now : Int) - 1440)
      ((now : Int) + 90 * 1440) c e hrev hsig pre hpre post db {}
    exact ⟨h1, h2, by simpa using h3⟩

/-- Service failing on one calendar with an ordinary (non-revocation)
error. -/
def c5svc : GService :=
  { svcInert with
    list := fun c _ _ => if c = "calA" then .error "HttpError 500" else .ok [] }

/-- Service whose listings always fail with the revocation signature. -/
def c5rsvc : GService :=
  { svcInert with
    list := fun _ _ _ =>
      .error "RefreshError: invalid_grant: Token has been expired or revoked." }

/-- Witness for `c5_watermark_after_pull`: with one calendar failing
with an ordinary error, the watermark is still stamped. -/
theorem c5_watermark_after_pull_witness :
    (pull_from_google c5svc c4user c4db ["calA", "calB"] 1000).1.users =
      c4db.users.map (fun u => if u.id = c4user.id then
        { u with lastCalendarSync := some 1000 } else u)
    ∧ (pull_from_google c5svc c4user c4db ["calA", "calB"] 1000).2.abortedOnRevocation = false :=
  (c5_watermark_after_pull c5svc c4user c4db ["calA", "calB"] 1000).1 (by
    intro c tmin tmax e h
    by_cases hc : c = "calA"
    · simp only [c5svc, hc, if_pos] at h
      cases h
      decide
    · simp [c5svc, hc] at h)

/-- **C5 counterexample.**  On a revocation-signature listing error the
watermark is not updated (it stays at its previous value), though the
claim says it is set to now in the revocation-abort case too. -/
theorem c5_counterexample :
    (pull_from_google c5rsvc c4user c4db ["calA"] 1000).1.users.map
        User.lastCalendarSync = [some 5]
    ∧ (pull_from_google c5rsvc c4user c4db ["calA"] 1000).2.abortedOnRevocation = true := by
  decide

/-! # Claim C3 — supporting analysis of the pull phase

`overwriteFrom` and `pulledNewTask` name the two task records the pull
branch writes (the overwrite `$set` and the `insert_one` document), so
that the case analysis of `pull_process_event` can be stated once. -/

/-- The record an existing task is overwritten to by a newer remote
event (note: `updatedAt` is *not* among the set fields). -/
def overwriteFrom (e : RemoteEvent) (due : Int × Option String) (now : Nat)
    (t : Task) : Task :=
  { t with title := some (e.summary.getD "Untitled"),
           description := some (e.description.getD ""),
           dueDate := some due.1, dueTime := due.2,
           lastSyncedAt := some now }

/-- The calendar-origin task created from an unmatched remote event. -/
def pulledNewTask (user : User) (calendarId : String) (now : Nat)
    (listRef : Option Nat) (eid : String) (e : RemoteEvent)
    (due : Int × Option String) (nid : Nat) : Task :=
  { id := nid, user := user.id,
    title := some (e.summary.getD "Untitled"),
    description := some (e.description.getD ""),
    listRef := listRef,
    dueDate := some due.1, dueTime := due.2,
    priority := some "none", status := some "scheduled",
    tags := ["google-calendar"],
    reminder := { enabled := some false },
    googleEventId := some eid, googleCalendarId := some calendarId,
    googleCalendarColor := e.colorId,
    syncedWithGoogle := some true, syncToCalendar := some true,
    lastSyncedAt := some now, createdAt := some now,
    updatedAt := some now }

/-- Each remote event's processing does exactly one of three things to
the store: nothing; overwrite the matched task (which is the user's and
carries the event's id); or insert the calendar-origin task. -/
theorem pull_process_event_cases (user : User) (cal : String) (now : Nat)
    (db : Db) (e : RemoteEvent) :
    ((pull_process_event user cal now db e).1 = db)
    ∨ (∃ t, t ∈ db.tasks ∧ (t.user == user.id) = true
        ∧ t.googleEventId = some (e.id.getD "") ∧ strTruthy e.id = true
        ∧ (pull_process_event user cal now db e).1 =
            db.updateTask t.id (overwriteFrom e (pull_event_due user e.start) now))
    ∨ (strTruthy e.id = true
        ∧ (pull_process_event user cal now db e).1 =
            db.insertTask (pulledNewTask user cal now
              ((db.lists.find? fun l => l.user == user.id && l.name == "Inbox").map
                MList.id)
              (e.id.getD "") e (pull_event_due user e.start))) := by
  unfold pull_process_event
  cases hT : strTruthy e.id with
  | false => left; simp
  | true =>
    simp only [Bool.not_true, Bool.false_eq_true, if_false]
    cases hst : e.start
    case missing => left; rfl
    all_goals (
      cases hfind : db.tasks.find?
          (fun tk => tk.user == user.id && tk.googleEventId == some (e.id.getD "")) with
      | none =>
        right; right
        exact ⟨by trivial, rfl⟩
      | some t =>
        have hp := List.find?_some hfind
        rw [Bool.and_eq_true] at hp
        have hmem := List.mem_of_find?_eq_some hfind
        have hgeid : t.googleEventId = some (e.id.getD "") := by simpa using hp.2
        dsimp only
        cases heu : e.updated with
        | none => left; rfl
        | some eu =>
          cases htu : t.updatedAt with
          | none => left; rfl
          | some tu =>
            by_cases hgt : eu > tu
            · right; left
              refine ⟨t, hmem, hp.1, hgeid, by trivial, ?_⟩
              dsimp only
              rw [if_pos hgt]
              rfl
            · left
              dsimp only
              rw [if_neg hgt])

/-- Pointwise store invariant: distinct task ids, ids below the id
counter, and a per-task property. -/
def DbInv (P : Task → Prop) (db : Db) : Prop :=
  (db.tasks.map Task.id).Nodup
  ∧ (∀ t ∈ db.tasks, t.id < db.nextTaskId)
  ∧ (∀ t ∈ db.tasks, P t)

theorem strTruthy_getD (o : Option String) (h : strTruthy o = true) :
    o.getD "" ≠ "" := by
  cases o with
  | none => simp [strTruthy] at h
  | some s => simpa [strTruthy] using h

/-- A pulled event preserves `DbInv P` provided `P` is stable under the
overwrite of a linked task and holds of every freshly created
calendar-origin task. -/
theorem pull_process_event_DbInv (P : Task → Prop) (user : User)
    (cal : String) (now : Nat) (db : Db) (e : RemoteEvent)
    (hover : ∀ t due, P t → strTruthy t.googleEventId = true →
      P (overwriteFrom e due now t))
    (hnew : ∀ listRef eid nid due, eid ≠ "" →
      P (pulledNewTask user cal now listRef eid e due nid))
    (h : DbInv P db) : DbInv P (pull_process_event user cal now db e).1 := by
  obtain ⟨hids, hbound, hall⟩ := h
  rcases pull_process_event_cases user cal now db e with hc | ⟨t, htm, hu, hg, hT, hc⟩ |
    ⟨hT, hc⟩
  · rw [hc]; exact ⟨hids, hbound, hall⟩
  · rw [hc]
    unfold Db.updateTask
    refine ⟨?_, ?_, ?_⟩
    · have : (db.tasks.map fun tk =>
          if tk.id = t.id then overwriteFrom e (pull_event_due user e.start) now tk
          else tk).map Task.id = db.tasks.map Task.id := by
        rw [List.map_map]
        apply List.map_congr_left
        intro tk _
        by_cases he : tk.id = t.id <;> simp [he, overwriteFrom]
      dsimp only
      rw [this]
      exact hids
    · dsimp only
      intro t' ht'
      obtain ⟨tk, htk, rfl⟩ := List.mem_map.mp ht'
      by_cases he : tk.id = t.id <;> simp only [he, if_pos, if_neg, if_true, if_false]
      · simpa [overwriteFrom] using hbound tk htk
      · exact hbound tk htk
    · dsimp only
      intro t' ht'
      obtain ⟨tk, htk, rfl⟩ := List.mem_map.mp ht'
      by_cases he : tk.id = t.id
      · have htkt : tk = t := List.inj_on_of_nodup_map hids htk htm he
        subst htkt
        simp only [if_pos rfl]
        apply hover tk _ (hall tk htk)
        rw [hg]
        simp [strTruthy, strTruthy_getD e.id hT]
      · simp only [if_neg he]
        exact hall tk htk
  · rw [hc]
    unfold Db.insertTask
    refine ⟨?_, ?_, ?_⟩
    · dsimp only
      rw [List.map_append]
      rw [List.nodup_append]
      refine ⟨hids, by simp [pulledNewTask], ?_⟩
      intro i him
      simp only [List.map_cons, List.map_nil, List.mem_singleton, pulledNewTask]
      obtain ⟨tk, htk, rfl⟩ := List.mem_map.mp him
      have := hbound tk htk
      omega
    · dsimp only
      intro t' ht'
      rcases List.mem_append.mp ht' with h | h
      · exact Nat.lt_succ_of_lt (hbound t' h)
      · rw [List.mem_singleton.mp h]
        exact Nat.lt_succ_self _
    · dsimp only
      intro t' ht'
      rcases List.mem_append.mp ht' with h | h
      · exact hall t' h
      · rw [List.mem_singleton.mp h]
        exact hnew _ _ _ _ (strTruthy_getD e.id hT)

/-- A task of the given user linked to the given remote event id exists
in the store. -/
def HasLink (uid : Nat) (eid : String) (db : Db) : Prop :=
  ∃ t ∈ db.tasks, (t.user == uid) = true ∧ t.googleEventId = some eid

theorem pull_process_event_haslink (user : User) (cal : String) (now : Nat)
    (db : Db) (e : RemoteEvent) (uid : Nat) (eid : String)
    (h : HasLink uid eid db) :
    HasLink uid eid (pull_process_event user cal now db e).1 := by
  obtain ⟨w, hwm, hwu, hwg⟩ := h
  rcases pull_process_event_cases user cal now db e with hc | ⟨t, _, _, _, _, hc⟩ |
    ⟨_, hc⟩
  · rw [hc]; exact ⟨w, hwm, hwu, hwg⟩
  · rw [hc]
    unfold Db.updateTask
    refine ⟨if w.id = t.id then overwriteFrom e (pull_event_due user e.start) now w
      else w, ?_, ?_, ?_⟩
    · dsimp only
      exact List.mem_map_of_mem _ hwm
    · by_cases he : w.id = t.id <;> simp [he, overwriteFrom, hwu]
    · by_cases he : w.id = t.id <;> simp [he, overwriteFrom, hwg]
  · rw [hc]
    unfold Db.insertTask
    exact ⟨w, by dsimp only; exact List.mem_append_left _ hwm, hwu, hwg⟩

theorem pull_process_event_establishes (user : User) (cal : String)
    (now : Nat) (db : Db) (e : RemoteEvent)
    (hT : strTruthy e.id = true) (hstart : e.start ≠ .missing) :
    HasLink user.id (e.id.getD "") (pull_process_event user cal now db e).1 := by
  cases hfind : db.tasks.find?
      (fun tk => tk.user == user.id && tk.googleEventId == some (e.id.getD "")) with
  | some t =>
    apply pull_process_event_haslink
    have hp := List.find?_some hfind
    rw [Bool.and_eq_true] at hp
    exact ⟨t, List.mem_of_find?_eq_some hfind, hp.1, by simpa using hp.2⟩
  | none =>
    unfold pull_process_event
    rw [hT]
    simp only [Bool.not_true, Bool.false_eq_true, if_false]
    cases hst : e.start
    case missing => exact absurd hst hstart
    all_goals (
      rw [hfind]
      dsimp only
      refine ⟨_, List.mem_append_right _ (List.mem_singleton_self _), by simp, rfl⟩)

/-- With either a falsy event id, a missing start, or an existing linked
task, a pulled event creates nothing. -/
theorem pull_process_event_no_create (user : User) (cal : String)
    (now : Nat) (db : Db) (e : RemoteEvent)
    (hcov : strTruthy e.id = true → e.start ≠ .missing →
      HasLink user.id (e.id.getD "") db) :
    (pull_process_event user cal now db e).2.2 = none := by
  unfold pull_process_event
  cases hT : strTruthy e.id with
  | false => rfl
  | true =>
    simp only [Bool.not_true, Bool.false_eq_true, if_false]
    cases hst : e.start
    case missing => rfl
    all_goals (
      obtain ⟨w, hwm, hwu, hwg⟩ := hcov hT (by rw [hst]; intro h; exact REventStart.noConfusion h)
      have hfind : (db.tasks.find?
          (fun tk => tk.user == user.id && tk.googleEventId == some (e.id.getD ""))).isSome := by
        rw [List.find?_isSome]
        exact ⟨w, hwm, by rw [Bool.and_eq_true]; exact ⟨hwu, by simp [hwg]⟩⟩
      cases hf : db.tasks.find?
          (fun tk => tk.user == user.id && tk.googleEventId == some (e.id.getD "")) with
      | none => rw [hf] at hfind; exact absurd hfind (by simp)
      | some t =>
        dsimp only
        cases e.updated with
        | none => rfl
        | some eu =>
          cases t.updatedAt with
          | none => rfl
          | some tu =>
            dsimp only
            split <;> rfl)

theorem pull_calendar_events_DbInv (P : Task → Prop) (user : User)
    (cal : String) (now : Nat)
    (hover : ∀ e t due, P t → strTruthy t.googleEventId = true →
      P (overwriteFrom e due now t))
    (hnew : ∀ e listRef eid nid due, eid ≠ "" →
      P (pulledNewTask user cal now listRef eid e due nid)) :
    ∀ (events : List RemoteEvent) (db : Db) (log : PullLog), DbInv P db →
      DbInv P (pull_calendar_events user cal now events db log).1 := by
  intro events
  induction events with
  | nil => intro db log h; exact h
  | cons e rest ih =>
    intro db log h
    exact ih _ _ (pull_process_event_DbInv P user cal now db e
      (hover e) (hnew e) h)

theorem pull_calendar_events_haslink (user : User) (cal : String) (now : Nat) :
    ∀ (events : List RemoteEvent) (db : Db) (log : PullLog) (uid : Nat)
      (eid : String), HasLink uid eid db →
      HasLink uid eid (pull_calendar_events user cal now events db log).1 := by
  intro events
  induction events with
  | nil => intro db log uid eid h; exact h
  | cons e rest ih =>
    intro db log uid eid h
    exact ih _ _ _ _ (pull_process_event_haslink user cal now db e uid eid h)

theorem pull_calendar_events_establishes (user : User) (cal : String)
    (now : Nat) :
    ∀ (events : List RemoteEvent) (db : Db) (log : PullLog) (e : RemoteEvent),
      e ∈ events → strTruthy e.id = true → e.start ≠ .missing →
      HasLink user.id (e.id.getD "")
        (pull_calendar_events user cal now events db log).1 := by
  intro events
  induction events with
  | nil => intro db log e he; exact absurd he (List.not_mem_nil e)
  | cons e0 rest ih =>
    intro db log e he hT hstart
    rcases List.mem_cons.mp he with he | he
    · subst he
      exact pull_calendar_events_haslink user cal now rest _ _ _ _
        (pull_process_event_establishes user cal now db e hT hstart)
    · exact ih _ _ e he hT hstart

theorem pull_calendar_events_no_creations (user : User) (cal : String)
    (now : Nat) :
    ∀ (events : List RemoteEvent) (db : Db) (log : PullLog),
      (∀ e ∈ events, strTruthy e.id = true → e.start ≠ .missing →
        HasLink user.id (e.id.getD "") db) →
      (pull_calendar_events user cal now events db log).2.creations =
        log.creations := by
  intro events
  induction events with
  | nil => intro db log _; rfl
  | cons e rest ih =>
    intro db log hcov
    simp only [pull_calendar_events]
    rw [pull_process_event_no_create user cal now db e
      (hcov e (List.mem_cons_self e rest))]
    rw [ih _ _ (fun e' he' hT hst => pull_process_event_haslink user cal now db e _ _
      (hcov e' (List.mem_cons_of_mem _ he') hT hst))]
    simp

theorem pull_loop_DbInv (P : Task → Prop) (svc : GService) (user : User)
    (now : Nat) (tmin tmax : Int)
    (hover : ∀ e t due, P t → strTruthy t.googleEventId = true →
      P (overwriteFrom e due now t))
    (hnew : ∀ cal0 e listRef eid nid due, eid ≠ "" →
      P (pulledNewTask user cal0 now listRef eid e due nid)) :
    ∀ (cs : List String) (db : Db) (log : PullLog), DbInv P db →
      DbInv P (pull_loop svc user now tmin tmax cs db log).1 := by
  intro cs
  induction cs with
  | nil =>
    intro db log h
    simp only [pull_loop]
    exact h
  | cons c rest ih =>
    intro db log h
    cases hl : svc.list c tmin tmax with
    | ok events =>
      simp only [pull_loop, hl]
      exact ih _ _ (pull_calendar_events_DbInv P user c now hover (hnew c) events db _ h)
    | error e =>
      simp only [pull_loop, hl]
      split
      · exact h
      · exact ih _ _ h

theorem pull_loop_haslink (svc : GService) (user : User) (now : Nat)
    (tmin tmax : Int) :
    ∀ (cs : List String) (db : Db) (log : PullLog) (uid : Nat) (eid : String),
      HasLink uid eid db →
      HasLink uid eid (pull_loop svc user now tmin tmax cs db log).1 := by
  intro cs
  induction cs with
  | nil =>
    intro db log uid eid h
    simp only [pull_loop]
    exact h
  | cons c rest ih =>
    intro db log uid eid h
    cases hl : svc.list c tmin tmax with
    | ok events =>
      simp only [pull_loop, hl]
      exact ih _ _ _ _ (pull_calendar_events_haslink user c now events db _ uid eid h)
    | error e =>
      simp only [pull_loop, hl]
      split
      · exact h
      · exact ih _ _ _ _ h

theorem pull_loop_establishes (svc : GService) (user : User) (now : Nat)
    (tmin tmax : Int) (L : String → List RemoteEvent)
    (hlist : ∀ c tmin' tmax', svc.list c tmin' tmax' = .ok (L c)) :
    ∀ (cs : List String) (db : Db) (log : PullLog) (c : String), c ∈ cs →
      ∀ e ∈ L c, strTruthy e.id = true → e.start ≠ .missing →
      HasLink user.id (e.id.getD "")
        (pull_loop svc user now tmin tmax cs db log).1 := by
  intro cs
  induction cs with
  | nil => intro db log c hc; exact absurd hc (List.not_mem_nil c)
  | cons c0 rest ih =>
    intro db log c hc e he hT hstart
    simp only [pull_loop, hlist c0 tmin tmax]
    rcases List.mem_cons.mp hc with hc | hc
    · subst hc
      exact pull_loop_haslink svc user now tmin tmax rest _ _ _ _
        (pull_calendar_events_establishes user c now (L c) db _ e he hT hstart)
    · exact ih _ _ c hc e he hT hstart

theorem pull_loop_no_creations (svc : GService) (user : User) (now : Nat)
    (tmin tmax : Int) (L : String → List RemoteEvent)
    (hlist : ∀ c tmin' tmax', svc.list c tmin' tmax' = .ok (L c)) :
    ∀ (cs : List String) (db : Db) (log : PullLog),
      (∀ c ∈ cs, ∀ e ∈ L c, strTruthy e.id = true → e.start ≠ .missing →
        HasLink user.id (e.id.getD "") db) →
      (pull_loop svc user now tmin tmax cs db log).2.creations =
        log.creations := by
  intro cs
  induction cs with
  | nil => intro db log _; rfl
  | cons c0 rest ih =>
    intro db log hcov
    simp only [pull_loop, hlist c0 tmin tmax]
    rw [ih _ _ (fun c hc e he hT hst =>
      pull_calendar_events_haslink user c0 now (L c0) db _ _ _
        (hcov c (List.mem_cons_of_mem _ hc) e he hT hst))]
    exact pull_calendar_events_no_creations user c0 now (L c0) db _
      (fun e he hT hst => hcov c0 (List.mem_cons_self c0 rest) e he hT hst)

theorem push_fold_record_id (svc : GService) (prefs : UserPreferences)
    (cal : String) (now : Nat) :
    ∀ (l : List Task) (z : Task),
      (l.foldl (fun acc cand => push_record_step svc prefs cal now cand acc) z).id =
        z.id := by
  intro l
  induction l with
  | nil => intro z; rfl
  | cons c rest ih =>
    intro z
    simp only [List.foldl_cons]
    rw [ih, push_record_step_id]

theorem push_tasks_ids (svc : GService) (user : User) (db : Db)
    (prefs : UserPreferences) (cal : String) (now : Nat) :
    (push_to_google svc user db prefs cal now).1.tasks.map Task.id =
      db.tasks.map Task.id
    ∧ (push_to_google svc user db prefs cal now).1.nextTaskId = db.nextTaskId
    ∧ (push_to_google svc user db prefs cal now).1.users = db.users := by
  rw [push_to_google_eq]
  obtain ⟨h1, h2, _, h4⟩ := push_foldl_fields svc prefs cal now
    (push_candidates user db) db
  refine ⟨?_, h4, h2⟩
  rw [h1, List.map_map]
  apply List.map_congr_left
  intro tk _
  exact push_fold_record_id svc prefs cal now _ tk

/-- The remote-call result for a linked task whose event body builds,
under an id-echoing update service. -/
theorem push_remote_result_linked (svc : GService) (prefs : UserPreferences)
    (cal : String) (t : Task) (body : GEventBody) (eid : String)
    (hbody : build_google_calendar_event t prefs = .ok body)
    (hge : t.googleEventId = some eid) (hne : eid ≠ "")
    (hupd : ∀ c eid' body', ∃ ev, svc.update c eid' body' = .ok ev ∧
      ev.id = some eid') :
    push_remote_result svc prefs cal t = some eid := by
  have hT : strTruthy t.googleEventId = true := by
    rw [hge]; simpa [strTruthy] using hne
  obtain ⟨ev, hok, hevid⟩ := hupd (t.googleCalendarId.getD cal) eid body
  unfold push_remote_result
  rw [hbody]
  dsimp only
  rw [hT]
  simp only [if_pos]
  rw [hge]
  simp only [Option.getD_some]
  rw [hok]
  exact hevid

/-- The remote-call result for an unlinked task whose event body builds,
under an insert service returning nonempty ids. -/
theorem push_remote_result_unlinked (svc : GService) (prefs : UserPreferences)
    (cal : String) (t : Task) (body : GEventBody)
    (hbody : build_google_calendar_event t prefs = .ok body)
    (hge : strTruthy t.googleEventId = false)
    (hins : ∀ c body', ∃ ev i, svc.insert c body' = .ok ev ∧ ev.id = some i ∧
      i ≠ "") :
    ∃ i, push_remote_result svc prefs cal t = some i ∧ i ≠ "" := by
  obtain ⟨ev, i, hok, hevid, hine⟩ := hins cal body
  refine ⟨i, ?_, hine⟩
  unfold push_remote_result
  rw [hbody]
  dsimp only
  rw [hge]
  simp only [Bool.false_eq_true, if_false]
  rw [hok]
  exact hevid

theorem push_preserves_haslink (svc : GService) (user : User) (db : Db)
    (prefs : UserPreferences) (cal : String) (now : Nat) (uid : Nat)
    (eid : String)
    (hids : (db.tasks.map Task.id).Nodup)
    (hupd : ∀ c eid' body', ∃ ev, svc.update c eid' body' = .ok ev ∧
      ev.id = some eid')
    (heid : eid ≠ "")
    (h : HasLink uid eid db) :
    HasLink uid eid (push_to_google svc user db prefs cal now).1 := by
  obtain ⟨w, hwm, hwu, hwg⟩ := h
  rw [push_to_google_eq]
  obtain ⟨h1, _, _, _⟩ := push_foldl_fields svc prefs cal now
    (push_candidates user db) db
  unfold HasLink
  dsimp only
  rw [h1]
  have hsub : ∀ cand ∈ push_candidates user db, cand ∈ db.tasks := by
    intro cand hc
    exact (List.mem_filter.mp (List.mem_filter.mp hc).1).1
  have key : ∀ (l : List Task), (∀ cand ∈ l, cand ∈ db.tasks) → ∀ z,
      (z.user == uid) = true ∧ z.googleEventId = some eid ∧ z.id = w.id →
      ((l.foldl (fun acc cand => push_record_step svc prefs cal now cand acc) z).user
          == uid) = true
      ∧ (l.foldl (fun acc cand => push_record_step svc prefs cal now cand acc)
          z).googleEventId = some eid
      ∧ (l.foldl (fun acc cand => push_record_step svc prefs cal now cand acc)
          z).id = w.id := by
    intro l
    induction l with
    | nil => intro _ z hz; exact hz
    | cons cand rest ih =>
      intro hmem z hz
      simp only [List.foldl_cons]
      apply ih (fun c hc => hmem c (List.mem_cons_of_mem _ hc))
      unfold push_record_step
      cases hr : push_remote_result svc prefs cal cand with
      | none => exact hz
      | some evId =>
        by_cases he : z.id = cand.id
        · have hcw : cand = w := List.inj_on_of_nodup_map hids
            (hmem cand (List.mem_cons_self cand rest)) hwm (by rw [← he, hz.2.2])
          subst hcw
          have : push_remote_result svc prefs cal cand = some eid := by
            cases hb : build_google_calendar_event cand prefs with
            | error err =>
              unfold push_remote_result at hr
              rw [hb] at hr
              exact absurd hr (by simp)
            | ok body =>
              exact push_remote_result_linked svc prefs cal cand body eid hb hwg
                heid hupd
          rw [hr] at this
          cases this
          dsimp only
          rw [if_pos he]
          exact ⟨hz.1, rfl, hz.2.2⟩
        · dsimp only
          rw [if_neg he]
          exact hz
  obtain ⟨k1, k2, k3⟩ := key (push_candidates user db) hsub w ⟨hwu, hwg, rfl⟩
  exact ⟨_, List.mem_map_of_mem _ hwm, k1, k2⟩

theorem push_settles (svc : GService) (user : User) (db : Db)
    (prefs : UserPreferences) (cal : String) (now : Nat)
    (hids : (db.tasks.map Task.id).Nodup)
    (hins : ∀ c body', ∃ ev i, svc.insert c body' = .ok ev ∧ ev.id = some i ∧
      i ≠ "")
    (hupd : ∀ c eid' body', ∃ ev, svc.update c eid' body' = .ok ev ∧
      ev.id = some eid')
    (hbuild : ∀ t ∈ db.tasks, (t.user == user.id) = true →
      needsPushFilter t = true →
      ∃ body, build_google_calendar_event t prefs = .ok body)
    (hbound : ∀ t ∈ db.tasks, ∀ u, t.updatedAt = some u → u ≤ now) :
    ∀ t' ∈ (push_to_google svc user db prefs cal now).1.tasks,
      (∀ u, t'.updatedAt = some u → u ≤ now)
      ∧ ((t'.user == user.id) = true → needsPushFilter t' = false) := by
  rw [push_to_google_eq]
  obtain ⟨h1, _, _, _⟩ := push_foldl_fields svc prefs cal now
    (push_candidates user db) db
  rw [h1]
  intro t' ht'
  obtain ⟨tk, htk, rfl⟩ := List.mem_map.mp ht'
  have hcand_ids : ((push_candidates user db).map Task.id).Nodup :=
    (((List.filter_sublist _).trans (List.filter_sublist _)).map Task.id).nodup hids
  by_cases hc : (tk.user == user.id) = true ∧ needsPushFilter tk = true
  · -- `tk` is a candidate: it is processed exactly once and ends settled
    have htc : tk ∈ push_candidates user db := by
      unfold push_candidates
      rw [List.mem_filter, List.mem_filter]
      exact ⟨⟨htk, hc.1⟩, hc.2⟩
    obtain ⟨l1, l2, hsplit⟩ := List.append_of_mem htc
    rw [hsplit] at hcand_ids
    simp only [List.map_append, List.map_cons] at hcand_ids
    obtain ⟨hn1, hn2, hdisj⟩ := List.nodup_append.mp hcand_ids
    have hne : ∀ cand, (cand ∈ l1 ∨ cand ∈ l2) → cand.id ≠ tk.id := by
      intro cand hcm heq
      rcases hcm with h | h
      · exact hdisj (List.mem_map_of_mem Task.id h)
          (show cand.id ∈ tk.id :: l2.map Task.id by
            rw [heq]; exact List.mem_cons_self _ _)
      · exact (List.nodup_cons.mp hn2).1
          (by rw [← heq]; exact List.mem_map_of_mem Task.id h)
    obtain ⟨body, hbody⟩ := hbuild tk htk hc.1 hc.2
    obtain ⟨j, hj, hjne⟩ : ∃ j, push_remote_result svc prefs cal tk = some j ∧
        j ≠ "" := by
      cases hge : strTruthy tk.googleEventId with
      | true =>
        obtain ⟨eid, hgeq⟩ : ∃ eid, tk.googleEventId = some eid := by
          cases hgg : tk.googleEventId with
          | none => rw [hgg] at hge; simp [strTruthy] at hge
          | some s => exact ⟨s, rfl⟩
        have hne' : eid ≠ "" := by
          rw [hgeq] at hge
          simpa [strTruthy] using hge
        exact ⟨eid, push_remote_result_linked svc prefs cal tk body eid hbody
          hgeq hne' hupd, hne'⟩
      | false =>
        exact push_remote_result_unlinked svc prefs cal tk body hbody hge hins
    have hstep : push_record_step svc prefs cal now tk tk =
        { tk with googleEventId := some j, googleCalendarId := some cal,
                  syncedWithGoogle := some true, lastSyncedAt := some now } := by
      unfold push_record_step
      rw [hj]
      simp
    have hF : (push_candidates user db).foldl
        (fun acc cand => push_record_step svc prefs cal now cand acc) tk =
        { tk with googleEventId := some j, googleCalendarId := some cal,
                  syncedWithGoogle := some true, lastSyncedAt := some now } := by
      rw [hsplit, List.foldl_append, List.foldl_cons]
      rw [push_foldl_record_skip svc prefs cal now l1 tk
        (fun cand hm => hne cand (Or.inl hm))]
      rw [hstep]
      apply push_foldl_record_skip
      intro cand hm
      exact hne cand (Or.inr hm)
    rw [hF]
    refine ⟨fun u hu => hbound tk htk u hu, fun _ => ?_⟩
    rw [← Bool.not_eq_true]
    intro hfil
    rcases ((needsPushFilter_iff _).mp hfil).2.2.2 with hfal | ⟨u, l, hu, hl, hlt⟩
    · simp [strTruthy, hjne] at hfal
    · cases hl
      have := hbound tk htk u hu
      omega
  · -- not a candidate: the record is untouched
    have hF : (push_candidates user db).foldl
        (fun acc cand => push_record_step svc prefs cal now cand acc) tk = tk := by
      apply push_foldl_record_skip
      intro cand hcm heq
      have hcmem : cand ∈ db.tasks :=
        (List.mem_filter.mp (List.mem_filter.mp hcm).1).1
      have : cand = tk := List.inj_on_of_nodup_map hids hcmem htk heq
      subst this
      exact hc ⟨(List.mem_filter.mp (List.mem_filter.mp hcm).1).2,
        (List.mem_filter.mp hcm).2⟩
    rw [hF]
    refine ⟨fun u hu => hbound tk htk u hu, fun hu => ?_⟩
    rw [← Bool.not_eq_true]
    intro hfil
    exact hc ⟨hu, hfil⟩

/-- A linked task freshly stamped `lastSyncedAt = now` with
`updatedAt ≤ now` is not a push candidate. -/
theorem filter_false_of_linked_synced (t : Task) (now : Nat)
    (hge : strTruthy t.googleEventId = true)
    (hlast : t.lastSyncedAt = some now)
    (hbound : ∀ u, t.updatedAt = some u → u ≤ now) :
    needsPushFilter t = false := by
  rw [← Bool.not_eq_true]
  intro hf
  rcases ((needsPushFilter_iff t).mp hf).2.2.2 with h | ⟨u, l, hu, hl, hlt⟩
  · rw [hge] at h; exact Bool.noConfusion h
  · rw [hlast] at hl
    cases hl
    have := hbound u hu
    omega

theorem sync_user_calendar_eq (getCreds : User → Option Unit) (svc : GService)
    (db : Db) (user : User) (now : Nat) (hc : getCreds user = some ()) :
    sync_user_calendar getCreds svc db user now =
      ((push_to_google svc user
          (pull_from_google svc user db (selected_calendars_or_default user) now).1
          user.preferences
          ((selected_calendars_or_default user).headD "primary") now).1,
       true,
       ⟨(pull_from_google svc user db (selected_calendars_or_default user) now).2,
        (push_to_google svc user
          (pull_from_google svc user db (selected_calendars_or_default user) now).1
          user.preferences
          ((selected_calendars_or_default user).headD "primary") now).2.1,
        (push_to_google svc user
          (pull_from_google svc user db (selected_calendars_or_default user) now).1
          user.preferences
          ((selected_calendars_or_default user).headD "primary") now).2.2⟩) := by
  unfold sync_user_calendar
  rw [hc]

theorem run_cycle_for_user_eq (getCreds : User → Option Unit) (svc : GService)
    (db : Db) (uid : Nat) (now : Nat) (u : User)
    (hu : db.users.find? (fun v => v.id == uid) = some u) :
    run_cycle_for_user getCreds svc db uid now =
      sync_user_calendar getCreds svc db u now := by
  unfold run_cycle_for_user
  rw [hu]

theorem find?_id_map (g : User → User) (hg : ∀ u, (g u).id = u.id)
    (uid : Nat) :
    ∀ l : List User,
      (l.map g).find? (fun u => u.id == uid) =
        (l.find? (fun u => u.id == uid)).map g := by
  intro l
  induction l with
  | nil => rfl
  | cons u rest ih =>
    simp only [List.map_cons, List.find?, hg u]
    cases h : u.id == uid with
    | false => exact ih
    | true => rfl

/-- **C3** (amended).  Under normal operation — credentials resolve, the
remote service is static (listings unchanged between the runs), inserts
return fresh nonempty event ids, updates echo the event id, task ids are
distinct, every stored `updatedAt` is at or before the first run's clock,
and present `dueTime`s parse — running the per-user cycle twice in
immediate succession produces **zero pushes and zero task creations on
the second run**.  (Contrary to the claim, pull-overwrites can recur on
the second run, because a pull-overwrite does not advance `updatedAt` —
see the counterexample.) -/
theorem c3_second_run_no_pushes_no_creations (getCreds : User → Option Unit)
    (svc : GService) (L : String → List RemoteEvent) (db : Db) (uid : Nat)
    (u0 : User) (now1 now2 : Nat)
    (hcreds : ∀ u, getCreds u = some ())
    (hlist : ∀ c tmin tmax, svc.list c tmin tmax = .ok (L c))
    (hins : ∀ c body', ∃ ev i, svc.insert c body' = .ok ev ∧ ev.id = some i ∧
      i ≠ "")
    (hupd : ∀ c eid' body', ∃ ev, svc.update c eid' body' = .ok ev ∧
      ev.id = some eid')
    (hu : db.users.find? (fun v => v.id == uid) = some u0)
    (hids : (db.tasks.map Task.id).Nodup)
    (hbnd : ∀ t ∈ db.tasks, t.id < db.nextTaskId)
    (hupdAt : ∀ t ∈ db.tasks, ∀ u, t.updatedAt = some u → u ≤ now1)
    (hwf : ∀ t ∈ db.tasks, ∀ s, t.dueTime = some s → s ≠ "" →
      ∃ hm, parseHM s = .ok hm)
    (h12 : now1 ≤ now2) :
    (run_cycle_for_user getCreds svc
      (run_cycle_for_user getCreds svc db uid now1).1 uid now2).2.2.pushAttempts = []
    ∧ (run_cycle_for_user getCreds svc
        (run_cycle_for_user getCreds svc db uid now1).1 uid now2).2.2.pushedCount = 0
    ∧ (run_cycle_for_user getCreds svc
        (run_cycle_for_user getCreds svc db uid now1).1 uid
        now2).2.2.pull.creations = [] := by
  have hnr : ∀ c tmin' tmax' e, svc.list c tmin' tmax' = .error e →
      isRevocationError e = false := by
    intro c tmin' tmax' e h
    rw [hlist] at h
    exact absurd h (by simp)
  have hu0id : u0.id = uid := by simpa using List.find?_some hu
  rw [run_cycle_for_user_eq getCreds svc db uid now1 u0 hu,
      sync_user_calendar_eq getCreds svc db u0 now1 (hcreds u0)]
  dsimp only
  set sel := selected_calendars_or_default u0 with hsel
  set db0 := (pull_from_google svc u0 db sel now1).1 with hdb0
  set target := sel.headD "primary" with htarget
  set db1 := (push_to_google svc u0 db0 u0.preferences target now1).1 with hdb1
  set u1 : User := { u0 with lastCalendarSync := some now1 } with hu1
  -- facts about the first run's pull result
  have hQ1 : DbInv (fun t => (∀ u, t.updatedAt = some u → u ≤ now1) ∧
      (t ∈ db.tasks ∨ (strTruthy t.googleEventId = true ∧
        t.lastSyncedAt = some now1))) db0 := by
    rw [hdb0]
    unfold pull_from_google
    apply pull_loop_DbInv
    · intro e t due hP hlink
      exact ⟨fun u hu' => hP.1 u hu', Or.inr ⟨hlink, rfl⟩⟩
    · intro cal0 e listRef eid nid due hne
      refine ⟨?_, Or.inr ⟨?_, rfl⟩⟩
      · intro u hu'
        cases hu'
        exact Nat.le_refl _
      · simpa [pulledNewTask, strTruthy] using hne
    · exact ⟨hids, hbnd, fun t ht => ⟨hupdAt t ht, Or.inl ht⟩⟩
  have hcov0 : ∀ c ∈ sel, ∀ e ∈ L c, strTruthy e.id = true →
      e.start ≠ .missing → HasLink u0.id (e.id.getD "") db0 := by
    intro c hc e he hT hst
    rw [hdb0]
    unfold pull_from_google
    exact pull_loop_establishes svc u0 now1 _ _ L hlist sel db {} c hc e he hT hst
  have husers0 : db0.users = db.users.map
      (fun v => if v.id = u0.id then { v with lastCalendarSync := some now1 }
        else v) := by
    rw [hdb0]
    unfold pull_from_google
    exact (pull_loop_users_no_revocation svc u0 now1 _ _ hnr sel db {}).1
  -- facts about the first run's push result
  have hbuild0 : ∀ t ∈ db0.tasks, (t.user == u0.id) = true →
      needsPushFilter t = true →
      ∃ body, build_google_calendar_event t u0.preferences = .ok body := by
    intro t ht _ hf
    rcases (hQ1.2.2 t ht).2 with horig | ⟨hlink, hlast⟩
    · exact build_ok_of t u0.preferences ((needsPushFilter_iff t).mp hf).2.1
        (hwf t horig)
    · exfalso
      have hff := filter_false_of_linked_synced t now1 hlink hlast (hQ1.2.2 t ht).1
      rw [hf] at hff
      exact Bool.noConfusion hff
  have hset1 : ∀ t' ∈ db1.tasks, (∀ u, t'.updatedAt = some u → u ≤ now1)
      ∧ ((t'.user == u0.id) = true → needsPushFilter t' = false) := by
    rw [hdb1]
    exact push_settles svc u0 db0 u0.preferences target now1 hQ1.1 hins hupd
      hbuild0 (fun t ht => (hQ1.2.2 t ht).1)
  have hcov1 : ∀ c ∈ sel, ∀ e ∈ L c, strTruthy e.id = true →
      e.start ≠ .missing → HasLink u0.id (e.id.getD "") db1 := by
    intro c hc e he hT hst
    rw [hdb1]
    exact push_preserves_haslink svc u0 db0 u0.preferences target now1 u0.id _
      hQ1.1 hupd (strTruthy_getD e.id hT) (hcov0 c hc e he hT hst)
  have hids1 : (db1.tasks.map Task.id).Nodup := by
    rw [hdb1, (push_tasks_ids svc u0 db0 u0.preferences target now1).1]
    exact hQ1.1
  have hbnd1 : ∀ t ∈ db1.tasks, t.id < db1.nextTaskId := by
    intro t ht
    rw [hdb1] at ht ⊢
    have h1 : t.id ∈ (push_to_google svc u0 db0 u0.preferences target
        now1).1.tasks.map Task.id := List.mem_map_of_mem Task.id ht
    rw [(push_tasks_ids svc u0 db0 u0.preferences target now1).1] at h1
    obtain ⟨t0, ht0, hte⟩ := List.mem_map.mp h1
    rw [(push_tasks_ids svc u0 db0 u0.preferences target now1).2.1, ← hte]
    exact hQ1.2.1 t0 ht0
  have husers1 : db1.users = db0.users := by
    rw [hdb1]
    exact (push_tasks_ids svc u0 db0 u0.preferences target now1).2.2
  -- the second run re-fetches the user: same record, watermark bumped
  have hfind2 : db1.users.find? (fun v => v.id == uid) = some u1 := by
    rw [husers1, husers0,
      find?_id_map _ (fun v => by by_cases h : v.id = u0.id <;> simp [h]) uid, hu]
    simp [hu1]
  rw [run_cycle_for_user_eq getCreds svc db1 uid now2 u1 hfind2,
      sync_user_calendar_eq getCreds svc db1 u1 now2 (hcreds u1)]
  dsimp only
  have hsel2 : selected_calendars_or_default u1 = sel := by rw [hsel]; rfl
  rw [hsel2]
  -- the second run's pull leaves every task of the user unpushable
  have hQ2 : DbInv (fun t => (∀ u, t.updatedAt = some u → u ≤ now2)
      ∧ ((t.user == u1.id) = true → needsPushFilter t = false))
      (pull_from_google svc u1 db1 sel now2).1 := by
    unfold pull_from_google
    apply pull_loop_DbInv
    · intro e t due hP hlink
      refine ⟨fun u hu' => hP.1 u hu', fun _ => ?_⟩
      exact filter_false_of_linked_synced _ now2 hlink rfl
        (fun u hu' => hP.1 u hu')
    · intro cal0 e listRef eid nid due hne
      refine ⟨?_, fun _ => ?_⟩
      · intro u hu'
        cases hu'
        exact Nat.le_refl _
      · refine filter_false_of_linked_synced _ now2 ?_ rfl ?_
        · simpa [pulledNewTask, strTruthy] using hne
        · intro u hu'
          cases hu'
          exact Nat.le_refl _
    · refine ⟨hids1, hbnd1, ?_⟩
      intro t ht
      obtain ⟨hb, hf⟩ := hset1 t ht
      exact ⟨fun u hu' => Nat.le_trans (hb u hu') h12, fun hue => hf hue⟩
  have hcand2 : push_candidates u1 (pull_from_google svc u1 db1 sel now2).1 = [] := by
    unfold push_candidates
    rw [List.filter_eq_nil_iff]
    intro a ha
    obtain ⟨ham, hau⟩ := List.mem_filter.mp ha
    rw [(hQ2.2.2 a ham).2 hau]
    simp
  refine ⟨?_, ?_, ?_⟩
  · rw [push_to_google_eq, hcand2]
    rfl
  · rw [push_to_google_eq, hcand2]
    rfl
  · unfold pull_from_google
    rw [pull_loop_no_creations svc u1 now2 _ _ L hlist sel db1 {}
      (fun c hc e he hT hst => hcov1 c hc e he hT hst)]

/-- C3 fixture task: linked, `updatedAt = 100`, older than the remote
event. -/
def c3task : Task :=
  { id := 1, user := 7, dueDate := some 20462, status := some "scheduled",
    syncToCalendar := some true, googleEventId := some "e1",
    googleCalendarId := some "calA", lastSyncedAt := some 150,
    updatedAt := some 100 }

/-- C3 fixture remote event, last modified at 200 (newer than the
task's `updatedAt`). -/
def c3ev : RemoteEvent :=
  { id := some "e1", summary := some "Remote", start := .date 2026 1 9,
    updated := some 200 }

/-- Static listing for the C3 fixtures. -/
def c3L : String → List RemoteEvent := fun c =>
  if c = "calA" then [c3ev] else []

/-- C3 fixture service: static listings, fresh insert ids, updates echo
the id. -/
def c3svc : GService :=
  { list := fun c _ _ => .ok (c3L c)
    insert := fun _ _ => .ok { id := some "new-ev" }
    update := fun _ e _ => .ok { id := some e } }

/-- C3 fixture user. -/
def c3user : User :=
  { id := 7, googleAccessToken := some "tok",
    googleSelectedCalendars := some ["calA"], lastCalendarSync := some 50 }

/-- C3 fixture store. -/
def c3db : Db :=
  { users := [c3user], tasks := [c3task], lists := [], nextTaskId := 10 }

/-- **C3 counterexample.**  With no mutation between the runs (static
remote), the remote event stays strictly newer than the task's
`updatedAt` (which the pull never advances), so the *second* run
performs a pull-overwrite again — the claim's "zero pull-overwrites on
the second run" is false. -/
theorem c3_counterexample :
    (run_cycle_for_user (fun _ => some ()) c3svc c3db 7 1000).2.2.pull.overwrites
        = [1]
    ∧ (run_cycle_for_user (fun _ => some ()) c3svc
        (run_cycle_for_user (fun _ => some ()) c3svc c3db 7 1000).1 7
        2000).2.2.pull.overwrites = [1] := by
  decide

/-- Witness for `c3_second_run_no_pushes_no_creations` at the fixture. -/
theorem c3_second_run_no_pushes_no_creations_witness :
    (run_cycle_for_user (fun _ => some ()) c3svc
      (run_cycle_for_user (fun _ => some ()) c3svc c3db 7 1000).1 7
      2000).2.2.pushAttempts = []
    ∧ (run_cycle_for_user (fun _ => some ()) c3svc
        (run_cycle_for_user (fun _ => some ()) c3svc c3db 7 1000).1 7
        2000).2.2.pushedCount = 0
    ∧ (run_cycle_for_user (fun _ => some ()) c3svc
        (run_cycle_for_user (fun _ => some ()) c3svc c3db 7 1000).1 7
        2000).2.2.pull.creations = [] :=
  c3_second_run_no_pushes_no_creations (fun _ => some ()) c3svc c3L c3db 7
    c3user 1000 2000
    (fun _ => rfl)
    (fun _ _ _ => rfl)
    (fun _ _ => ⟨{ id := some "new-ev" }, "new-ev", rfl, rfl, by decide⟩)
    (fun _ e _ => ⟨{ id := some e }, rfl, rfl⟩)
    (by decide) (by decide) (by decide)
    (by
      intro t ht u hu
      have : t = c3task := by simpa [c3db] using ht
      subst this
      have : u = 100 := by simpa [c3task] using hu.symm
      omega)
    (by
      intro t ht s hs
      have : t = c3task := by simpa [c3db] using ht
      subst this
      simp [c3task] at hs)
    (by omega)

/-! # Claim C8 -/

theorem eraseP_eq_filter_of_nodup_ids (i : Nat) :
    ∀ (l : List Task), (l.map Task.id).Nodup →
      l.eraseP (fun x => x.id == i) = l.filter (fun x => !(x.id == i)) := by
  intro l
  induction l with
  | nil => intro _; rfl
  | cons t rest ih =>
    intro h
    rw [List.map_cons, List.nodup_cons] at h
    by_cases ht : t.id = i
    · rw [List.eraseP_cons_of_pos (by simp [ht]), List.filter_cons_of_neg (by simp [ht])]
      symm
      apply List.filter_eq_self.mpr
      intro x hx
      simp only [Bool.not_eq_true', beq_eq_false_iff_ne, ne_eq]
      intro he
      exact h.1 (by rw [ht, ← he]; exact List.mem_map_of_mem Task.id hx)
    · rw [List.eraseP_cons_of_neg (by simp [ht]), List.filter_cons_of_pos (by simp [ht])]
      rw [ih h.2]

theorem foldl_deleteTaskOnce_users (del : List Task) :
    ∀ (db : Db),
      (del.foldl (fun d t => d.deleteTaskOnce t.id) db).users = db.users
      ∧ (del.foldl (fun d t => d.deleteTaskOnce t.id) db).lists = db.lists := by
  induction del with
  | nil => intro db; exact ⟨rfl, rfl⟩
  | cons d rest ih => intro db; exact ih _

theorem foldl_deleteTaskOnce_tasks (del : List Task) :
    ∀ (db : Db), (db.tasks.map Task.id).Nodup →
      (del.foldl (fun d t => d.deleteTaskOnce t.id) db).tasks =
        db.tasks.filter (fun t => !(del.any (fun d => t.id == d.id))) := by
  induction del with
  | nil =>
    intro db _
    simp
  | cons d rest ih =>
    intro db h
    simp only [List.foldl_cons]
    have herase : (db.deleteTaskOnce d.id).tasks =
        db.tasks.filter (fun x => !(x.id == d.id)) := by
      unfold Db.deleteTaskOnce
      exact eraseP_eq_filter_of_nodup_ids d.id db.tasks h
    have hnodup' : ((db.deleteTaskOnce d.id).tasks.map Task.id).Nodup := by
      rw [herase]
      exact ((List.filter_sublist _).map Task.id).nodup h
    rw [ih _ hnodup', herase, List.filter_filter]
    apply List.filter_congr
    intro x _
    simp only [List.any_cons, Bool.not_or]
    cases hx : x.id == d.id <;> simp

/-- **C8** (confirmed).  `select_calendars` deletes exactly the user's
tasks whose `googleCalendarId` lies in the deselected set (previously
selected minus newly selected), leaves every other task — in particular
every task linked to a still-selected calendar, and every other user's
task — untouched and in order, reports the deleted count, and stores the
new selection on the user record. -/
theorem c8_deselection_cleanup (user : User) (newIds : List String) (db : Db)
    (hids : (db.tasks.map Task.id).Nodup) :
    (select_calendars user newIds db).1.tasks =
      db.tasks.filter
        (fun t => !(t.user == user.id && task_in_deselected user newIds t))
    ∧ (select_calendars user newIds db).2 =
        (db.tasks.filter
          (fun t => t.user == user.id && task_in_deselected user newIds t)).length
    ∧ (select_calendars user newIds db).1.users =
        db.users.map (fun u => if u.id = user.id then
          { u with googleSelectedCalendars := some newIds } else u) := by
  unfold select_calendars
  dsimp only
  have htodel :
      ((db.tasks.filter fun t => t.user == user.id).filter
        (task_in_deselected user newIds)) =
      db.tasks.filter
        (fun t => t.user == user.id && task_in_deselected user newIds t) := by
    rw [List.filter_filter]
    apply List.filter_congr
    intro x _
    cases hx : x.user == user.id <;> simp
  rw [htodel]
  have hpoint : ∀ t ∈ db.tasks,
      ((db.tasks.filter
          (fun t => t.user == user.id && task_in_deselected user newIds t)).any
        (fun d => t.id == d.id)) =
      (t.user == user.id && task_in_deselected user newIds t) := by
    intro t htm
    cases hq : (t.user == user.id && task_in_deselected user newIds t) with
    | true =>
      apply List.any_eq_true.mpr
      exact ⟨t, List.mem_filter.mpr ⟨htm, hq⟩, by simp⟩
    | false =>
      apply Bool.eq_false_iff.mpr
      intro hany
      obtain ⟨d, hdm, hde⟩ := List.any_eq_true.mp hany
      obtain ⟨hdm1, hdm2⟩ := List.mem_filter.mp hdm
      have hidq : t.id = d.id := by simpa using hde
      have hdt : d = t := List.inj_on_of_nodup_map hids hdm1 htm hidq.symm
      subst hdt
      rw [hq] at hdm2
      exact Bool.noConfusion hdm2
  refine ⟨?_, rfl, ?_⟩
  · rw [show ∀ (X : Db) (f : User → User), (Db.updateUser X user.id f).tasks = X.tasks
      from fun _ _ => rfl]
    rw [foldl_deleteTaskOnce_tasks _ db hids]
    exact List.filter_congr (fun x hx => by rw [hpoint x hx])
  · unfold Db.updateUser
    dsimp only
    rw [(foldl_deleteTaskOnce_users _ _).1]

/-- C8 fixture: a task linked to calendar `"A"`. -/
def c8taskA : Task := { id := 21, user := 7, googleCalendarId := some "A" }

/-- C8 fixture: a task linked to calendar `"B"`. -/
def c8taskB : Task := { id := 22, user := 7, googleCalendarId := some "B" }

/-- C8 fixture user with calendars `A` and `B` selected. -/
def c8user : User := { id := 7, googleSelectedCalendars := some ["A", "B"] }

/-- C8 fixture store. -/
def c8db : Db :=
  { users := [c8user], tasks := [c8taskA, c8taskB], lists := [], nextTaskId := 50 }

/-- Witness for `c8_deselection_cleanup`: deselecting `B` deletes
exactly the task linked to `B`. -/
theorem c8_deselection_cleanup_witness :
    (select_calendars c8user ["A"] c8db).1.tasks =
      c8db.tasks.filter
        (fun t => !(t.user == c8user.id && task_in_deselected c8user ["A"] t))
    ∧ (select_calendars c8user ["A"] c8db).2 =
        (c8db.tasks.filter
          (fun t => t.user == c8user.id && task_in_deselected c8user ["A"] t)).length
    ∧ (select_calendars c8user ["A"] c8db).1.users =
        c8db.users.map (fun u => if u.id = c8user.id then
          { u with googleSelectedCalendars := some ["A"] } else u) :=
  c8_deselection_cleanup c8user ["A"] c8db (by decide)

/-! # Claim C2 -/

/-- **C2** (amended).  For a remote event matching an existing local
task by `(user, googleEventId)`, with both last-modified timestamps
present: if the remote timestamp is strictly later than the task's
`updatedAt`, the pull overwrites exactly title, description, dueDate and
dueTime from the event and sets `lastSyncedAt` to now; if the local
`updatedAt` is equal or later, the event's processing leaves the store
completely unchanged — in particular a tie causes no pull-overwrite.
(Contrary to the claim's "nor a push": a tie with the remote timestamp
does not by itself prevent a push, which is decided solely by
`updatedAt > lastSyncedAt` — see the counterexample.) -/
theorem c2_pull_conflict_resolution (user : User) (cal : String) (now : Nat)
    (db : Db) (event : RemoteEvent) (t : Task) (eid : String) (eu tu : Nat)
    (hid : event.id = some eid) (hne : eid ≠ "")
    (hfind : db.tasks.find?
      (fun tk => tk.user == user.id && tk.googleEventId == some eid) = some t)
    (hstart : event.start ≠ .missing)
    (heu : event.updated = some eu) (htu : t.updatedAt = some tu) :
    (tu < eu →
      pull_process_event user cal now db event =
        (db.updateTask t.id (fun tk =>
          { tk with title := some (event.summary.getD "Untitled"),
                    description := some (event.description.getD ""),
                    dueDate := some (pull_event_due user event.start).1,
                    dueTime := (pull_event_due user event.start).2,
                    lastSyncedAt := some now }),
         some t.id, none))
    ∧ (eu ≤ tu →
        pull_process_event user cal now db event = (db, none, none)) := by
  have hT : strTruthy event.id = true := by
    rw [hid]; simp [strTruthy, hne]
  constructor <;> intro hcmp <;>
    (unfold pull_process_event
     simp only [hT, Bool.not_true, Bool.false_eq_true, if_false]
     rw [hid]
     simp only [Option.getD_some]
     cases hst : event.start <;>
       first
       | (rw [hst] at hstart; exact absurd rfl hstart)
       | (rw [hfind]
          dsimp only
          rw [heu, htu]
          dsimp only
          first
          | rw [if_pos (show eu > tu by omega)]
          | rw [if_neg (show ¬(eu > tu) by omega)]))

/-- C2/C3 fixture task: linked, sync-enabled, `updatedAt = 200`,
`lastSyncedAt = 50`. -/
def c2task : Task :=
  { id := 1, user := 7, dueDate := some 20462, status := some "scheduled",
    syncToCalendar := some true, googleEventId := some "e1",
    googleCalendarId := some "calA", lastSyncedAt := some 50,
    updatedAt := some 200 }

/-- C2 fixture remote event: same id, last-modified `200` — exactly the
task's `updatedAt`. -/
def c2ev : RemoteEvent :=
  { id := some "e1", summary := some "Remote", start := .date 2026 1 9,
    updated := some 200 }

/-- C2 fixture service: `calA` lists `c2ev`; updates echo the id. -/
def c2svc : GService :=
  { list := fun c _ _ => if c = "calA" then .ok [c2ev] else .ok []
    insert := fun _ _ => .ok { id := some "new-ev" }
    update := fun _ e _ => .ok { id := some e } }

/-- C2 fixture user. -/
def c2user : User :=
  { id := 7, googleAccessToken := some "tok",
    googleSelectedCalendars := some ["calA"], lastCalendarSync := some 50 }

/-- C2 fixture store. -/
def c2db : Db :=
  { users := [c2user], tasks := [c2task], lists := [], nextTaskId := 10 }

/-- C2 witness fixture: the same event with a strictly newer
last-modified timestamp. -/
def c2wev : RemoteEvent := { c2ev with updated := some 300 }

/-- Witness for `c2_pull_conflict_resolution`: the remote side is newer,
so the pull overwrites exactly the four fields and bumps
`lastSyncedAt`. -/
theorem c2_pull_conflict_resolution_witness :
    pull_process_event c2user "calA" 1000 c2db c2wev =
      (c2db.updateTask c2task.id (fun tk =>
        { tk with title := some (c2wev.summary.getD "Untitled"),
                  description := some (c2wev.description.getD ""),
                  dueDate := some (pull_event_due c2user c2wev.start).1,
                  dueTime := (pull_event_due c2user c2wev.start).2,
                  lastSyncedAt := some 1000 }),
       some c2task.id, none) :=
  (c2_pull_conflict_resolution c2user "calA" 1000 c2db c2wev c2task "e1"
    300 200 rfl (by decide) (by decide) (by decide) rfl rfl).1 (by omega)

/-- **C2 counterexample.**  Local `updatedAt` equals the remote
last-modified timestamp exactly (both 200), and indeed no pull-overwrite
happens — but the cycle still pushes the task (its
`updatedAt > lastSyncedAt`) and modifies the record (`lastSyncedAt`
becomes now), so "neither a pull-overwrite nor a push" and "left
entirely unchanged for that cycle" are false. -/
theorem c2_counterexample :
    c2task.updatedAt = c2ev.updated
    ∧ (run_cycle_for_user (fun _ => some ()) c2svc c2db 7 1000).2.2.pull.overwrites = []
    ∧ (run_cycle_for_user (fun _ => some ()) c2svc c2db 7 1000).2.2.pushAttempts =
        [.update 1 "calA" "e1"]
    ∧ (run_cycle_for_user (fun _ => some ()) c2svc c2db 7 1000).2.2.pushedCount = 1
    ∧ (run_cycle_for_user (fun _ => some ()) c2svc c2db 7 1000).1.tasks.map
        Task.lastSyncedAt = [some 1000] := by
  decide

/-! # Claim C9 -/

/-- Any successfully built event body carries the reminders field the
mapper computes: present exactly under the mapper's condition. -/
theorem build_reminders_eq (task : Task) (prefs : UserPreferences)
    (body : GEventBody)
    (hbody : build_google_calendar_event task prefs = .ok body) :
    body.reminders =
      (if boolTruthy task.reminder.enabled &&
          boolTruthy (some (task.reminder.notifyMobile.getD true)) then
        some { useDefault := false,
               overrides := [("popup", task.reminder.minutesBefore.getD 30)] }
      else none) := by
  unfold build_google_calendar_event at hbody
  cases hdd : task.dueDate with
  | none => rw [hdd] at hbody; exact Except.noConfusion hbody
  | some d =>
    rw [hdd] at hbody
    dsimp only at hbody
    split at hbody
    · injection hbody with h
      subst h
      rfl
    · split at hbody
      · cases hp : parseHM _ with
        | error e =>
          rw [hp] at hbody
          exact Except.noConfusion hbody
        | ok hm =>
          rw [hp] at hbody
          obtain ⟨hh, mm⟩ := hm
          injection hbody with h
          subst h
          rfl
      · injection hbody with h
        subst h
        rfl

/-- **C9** (amended).  A reminders override is attached to the built
event body exactly when `reminder.enabled` is true and
`reminder.notifyMobile` is **not explicitly false** (an absent
`notifyMobile` defaults to true — contrary to the claim, which requires
it to be true); when attached it is a single popup override of the
task's minutes-before value (default 30) with `useDefault = false`, and
otherwise no reminders field is present. -/
theorem c9_reminder_override (task : Task) (prefs : UserPreferences)
    (body : GEventBody)
    (hbody : build_google_calendar_event task prefs = .ok body) :
    (body.reminders.isSome = true ↔
      (task.reminder.enabled = some true ∧ task.reminder.notifyMobile ≠ some false))
    ∧ (∀ r, body.reminders = some r →
        r = { useDefault := false,
              overrides := [("popup", task.reminder.minutesBefore.getD 30)] }) := by
  have h := build_reminders_eq task prefs body hbody
  have hnm : boolTruthy (some (task.reminder.notifyMobile.getD true)) = true ↔
      task.reminder.notifyMobile ≠ some false := by
    cases hx : task.reminder.notifyMobile with
    | none => simp [boolTruthy]
    | some b => cases b <;> simp [boolTruthy]
  constructor
  · rw [h]
    split
    · rename_i hc
      simp only [Option.isSome_some, true_iff]
      rw [Bool.and_eq_true, boolTruthy_iff, hnm] at hc
      exact hc
    · rename_i hc
      simp only [Option.isSome_none, Bool.false_eq_true, false_iff]
      intro ⟨h1, h2⟩
      exact hc (by rw [Bool.and_eq_true, boolTruthy_iff, hnm]; exact ⟨h1, h2⟩)
  · intro r hr
    rw [h] at hr
    split at hr
    · cases hr; rfl
    · cases hr

/-- C9 witness fixture: reminder enabled, `notifyMobile` explicitly
true, 45 minutes before. -/
def c9wtask : Task :=
  { id := 4, user := 7, dueDate := some 20462,
    reminder := { enabled := some true, notifyMobile := some true,
                  minutesBefore := some 45 } }

/-- The event body `c9wtask` builds to. -/
def c9wbody : GEventBody :=
  { summary := "Untitled Task", description := "📋 Created in NovaDo\n",
    startTime := .date 20462, endTime := .date 20462,
    reminders := some { useDefault := false, overrides := [("popup", 45)] },
    colorId := "7" }

/-- Witness for `c9_reminder_override` at the fixture. -/
theorem c9_reminder_override_witness : c9wbody.reminders.isSome = true :=
  (c9_reminder_override c9wtask ⟨none⟩ c9wbody rfl).1.mpr
    ⟨rfl, by decide⟩

/-- C9 counterexample fixture: reminder enabled, `notifyMobile` absent. -/
def c9xtask : Task :=
  { id := 5, user := 7, dueDate := some 20462,
    reminder := { enabled := some true, minutesBefore := some 15 } }

/-- The event body `c9xtask` builds to. -/
def c9xbody : GEventBody :=
  { summary := "Untitled Task", description := "📋 Created in NovaDo\n",
    startTime := .date 20462, endTime := .date 20462,
    reminders := some { useDefault := false, overrides := [("popup", 15)] },
    colorId := "7" }

/-- **C9 counterexample.**  With `reminder.enabled = true` but
`notifyMobile` absent (hence not "true"), the built body still carries
the popup override — the claim's "only when both are true" is false. -/
theorem c9_counterexample :
    build_google_calendar_event c9xtask ⟨none⟩ = .ok c9xbody
    ∧ c9xtask.reminder.notifyMobile = none
    ∧ c9xbody.reminders.isSome = true :=
  ⟨rfl, rfl, rfl⟩

/-! # Claim C6 -/

/-- **C6** (confirmed).  A time string with no timezone marker is
interpreted as already being in the user's configured timezone: whenever
the zone's `localize`/`astimezone` round-trip is consistent at that wall
time (true for every non-ambiguous, existing local time), the output is
the literal date and the literal `"HH:MM"` of the input, unshifted.
Concretely, naive `"2026-01-09T14:30:00"` with `America/Denver` yields
(2026-01-09, `"14:30"`), while the `"Z"`-suffixed string of the same
digits is shifted by the UTC→Denver offset to (2026-01-09, `"07:30"`);
and any timezone name unknown to the zone table behaves exactly as UTC
(the function is total — `pytz.UnknownTimeZoneError` is caught, never
propagated). -/
theorem c6_naive_times_are_user_local (dt : CivilDT) (prefs : UserPreferences)
    (tz : Tz)
    (htz : pytzTimezone (prefs.timezone.getD "UTC") = some tz)
    (hh0 : 0 ≤ dt.hour) (hh : dt.hour < 24)
    (hm0 : 0 ≤ dt.minute) (hm : dt.minute < 60)
    (hrt : tz.offsetAtInstant (dt.wall - tz.localizeOffset dt.wall) =
           tz.localizeOffset dt.wall) :
    convert_event_time_to_user_tz (.naive dt) prefs =
      (daysFromCivil dt.year dt.month dt.day,
       pad2 dt.hour.toNat ++ ":" ++ pad2 dt.minute.toNat)
    ∧ convert_event_time_to_user_tz (.naive ⟨2026, 1, 9, 14, 30⟩)
        ⟨some "America/Denver"⟩ = (daysFromCivil 2026 1 9, "14:30")
    ∧ convert_event_time_to_user_tz (.zulu ⟨2026, 1, 9, 14, 30⟩)
        ⟨some "America/Denver"⟩ = (daysFromCivil 2026 1 9, "07:30")
    ∧ (∀ name s, pytzTimezone name = none →
        convert_event_time_to_user_tz s ⟨some name⟩ =
        convert_event_time_to_user_tz s ⟨some "UTC"⟩) := by
  refine ⟨?_, by decide, by decide, ?_⟩
  · simp only [convert_event_time_to_user_tz, RemoteTimeStr.endsWithZ,
      RemoteTimeStr.hasOffsetMarker, RemoteTimeStr.digits, htz,
      Bool.false_eq_true, if_false]
    have hw : dt.wall - tz.localizeOffset dt.wall +
        tz.offsetAtInstant (dt.wall - tz.localizeOffset dt.wall) = dt.wall := by
      rw [hrt]; ring
    rw [hw]
    have hwall : dt.wall = daysFromCivil dt.year dt.month dt.day * 1440 +
        (dt.hour * 60 + dt.minute) := by
      rw [CivilDT.wall]; ring
    refine Prod.ext ?_ ?_
    · show dt.wall / 1440 = daysFromCivil dt.year dt.month dt.day
      rw [hwall]
      generalize daysFromCivil dt.year dt.month dt.day = D
      omega
    · show fmtHM dt.wall = pad2 dt.hour.toNat ++ ":" ++ pad2 dt.minute.toNat
      rw [fmtHM, hwall]
      generalize daysFromCivil dt.year dt.month dt.day = D
      have h1 : ((D * 1440 + (dt.hour * 60 + dt.minute)) % 1440) / 60 =
          dt.hour := by omega
      have h2 : (D * 1440 + (dt.hour * 60 + dt.minute)) % 60 = dt.minute := by
        omega
      rw [h1, h2]
  · intro name s hname
    simp only [convert_event_time_to_user_tz, Option.getD]
    rw [hname]
    simp [pytzTimezone]

/-- Witness for `c6_naive_times_are_user_local` at the claimed concrete
input (naive Denver time, winter date). -/
theorem c6_naive_times_are_user_local_witness :
    convert_event_time_to_user_tz (.naive ⟨2026, 1, 9, 14, 30⟩)
        ⟨some "America/Denver"⟩ =
      (daysFromCivil 2026 1 9,
       pad2 (Int.toNat 14) ++ ":" ++ pad2 (Int.toNat 30)) :=
  (c6_naive_times_are_user_local ⟨2026, 1, 9, 14, 30⟩ ⟨some "America/Denver"⟩
    denverTz rfl (by decide) (by decide) (by decide) (by decide)
    (by decide)).1

end NovaDo
